import Mathlib

/-!
Verification of the liquid-handling command compiler of this repository,
centred on the compound command creator `distribute`
(`protocol-designer/src/step-generation/commandCreators/compound/distribute.js`).

The implementation file of `distribute` is not part of the checked-in sources
here; only its unit-test suite
(`protocol-designer/src/step-generation/__tests__/distribute.test.js`) is.
The model below is therefore written from the specification (sections 3, 4.1,
4.2, 4.3 and 7 of the design document), and wherever the in-repo test suite
pins down behaviour more precisely than the spec prose, the model follows the
test suite, which is the code authority:
  - the air-gap volume is reserved against pipette capacity during chunking
    (test "should air gap after aspirate and break into two chunks");
  - touch-tip after aspirate is emitted before the air-gap aspirate
    (test "all advanced settings enabled");
  - the dispense-air-gap is released into the first well of each chunk only,
    and the delay following it comes from dispenseDelay
    (tests "should delay after air gap aspirate and regular aspirate" and
     "should delay after air gap dispense and regular dispense").

Numeric quantities (µL, mm, seconds, µL/s) are JavaScript numbers in the
source; they are embedded as rationals (ℚ), on which all arithmetic appearing
in the compiler is exact.
-/

namespace StepGeneration

/-- Fatal error kinds of the step generator (spec section 7). -/
inductive ErrorKind
  | PIPETTE_DOES_NOT_EXIST
  | PIPETTE_VOLUME_EXCEEDED
  | INSUFFICIENT_TIPS
deriving DecidableEq, Repr

/-- Change-tip policy of a compound command (spec section 3). -/
inductive ChangeTip
  | never
  | once
  | always
deriving DecidableEq, Repr

/-- Delay configuration: wait time and a position above the well bottom
(`{ seconds, mmFromBottom }` in the source). -/
structure DelayParams where
  seconds : ℚ
  mmFromBottom : ℚ
deriving DecidableEq, Repr

/-- Mix-before-aspirate configuration (`{ times, volume }` in the source). -/
structure MixParams where
  times : Nat
  volume : ℚ
deriving DecidableEq, Repr

/-- One atomic hardware instruction, the output unit of the compiler
(spec section 3, "Instruction").  Each constructor carries the concrete
parameters the executor consumes. -/
inductive Command
  | aspirate (labware well : String) (volume flowRate offsetFromBottomMm : ℚ)
  | dispense (labware well : String) (volume flowRate offsetFromBottomMm : ℚ)
  | airGap (labware well : String) (volume flowRate offsetFromBottomMm : ℚ)
  | dispenseAirGap (labware well : String) (volume flowRate offsetFromBottomMm : ℚ)
  | delay (wait : ℚ)
  | moveToWell (labware well : String) (x y z : ℚ)
  | touchTip (labware well : String) (offsetFromBottomMm : ℚ)
  | blowout (labware well : String) (flowRate offsetFromBottomMm : ℚ)
  | pickUpTip (labware well : String)
  | dropTip (labware well : String)
deriving DecidableEq, Repr

/-- Static pipette data from the pipette registry (spec section 3). -/
structure PipetteSpec where
  maxVolume : ℚ
  channels : Nat
deriving DecidableEq, Repr

/-- Static labware data: the well geometry needed by the step generator
(well depth drives the air-gap height, taken 1 mm above the well top). -/
structure LabwareDef where
  wellDepth : ℚ
deriving DecidableEq, Repr

/-- Static context: read-only registries supplied once per compilation run
(spec section 3, "Static Context"). -/
structure InvariantContext where
  pipettes : List (String × PipetteSpec)
  labware : List (String × LabwareDef)
deriving DecidableEq, Repr

/-- Simulation state threaded through the run (spec section 3): whether the
pipette currently carries a tip, the unconsumed tip-rack wells in pick-up
order, and per-well liquid volumes keyed by (labware id, well name). -/
structure RobotState where
  tipHeld : Bool
  rack : List String
  liquids : List ((String × String) × ℚ)
deriving DecidableEq, Repr

/-- Arguments of one declarative distribute operation (`DistributeArgs` in
the source; field set as in the test suite's `mixinArgs`). -/
structure DistributeArgs where
  pipette : String
  sourceLabware : String
  sourceWell : String
  destLabware : String
  destWells : List String
  volume : ℚ
  changeTip : ChangeTip
  disposalVolume : Option ℚ
  disposalLabware : Option String
  disposalWell : Option String
  mixBeforeAspirate : Option MixParams
  aspirateDelay : Option DelayParams
  dispenseDelay : Option DelayParams
  aspirateAirGapVolume : Option ℚ
  touchTipAfterAspirate : Bool
  touchTipAfterDispense : Bool
  preWetTip : Bool
  aspirateFlowRateUlSec : ℚ
  dispenseFlowRateUlSec : ℚ
  blowoutFlowRateUlSec : ℚ
  aspirateOffsetFromBottomMm : ℚ
  dispenseOffsetFromBottomMm : ℚ
  touchTipAfterAspirateOffsetMmFromBottom : ℚ
  touchTipAfterDispenseOffsetMmFromBottom : ℚ
  blowoutOffsetFromTopMm : ℚ
deriving DecidableEq, Repr

/-- Labware id of the fixed trash, where tips are dropped (`FIXED_TRASH_ID`
in the source fixtures). -/
def FIXED_TRASH_ID : String := "trashId"

/-- Labware id of the tip rack assigned to the pipette in the fixtures. -/
def TIPRACK_ID : String := "tiprack1Id"

/-- Disposal volume with absent treated as 0 (spec section 4.3 step 2). -/
def disposalVol (args : DistributeArgs) : ℚ := args.disposalVolume.getD 0

/-- Aspirate air-gap volume with absent treated as 0. -/
def airGapVol (args : DistributeArgs) : ℚ := args.aspirateAirGapVolume.getD 0

/-- Well depth of a labware id looked up in the static context (0 when the
labware is unknown; the fixtures always contain the ids used). -/
def wellDepth (ctx : InvariantContext) (lw : String) : ℚ :=
  ((ctx.labware.lookup lw).map LabwareDef.wellDepth).getD 0

/-- Greedy chunk width: the number of destination wells served by one
aspirate.  Modelled from the spec (section 4.3 step 2) with the air-gap
volume also reserved, as fixed by the test
"should air gap after aspirate and break into two chunks":
floor of (pipette max volume − disposal volume − air-gap volume) / volume,
clamped to 0 when negative. -/
def maxWellsPerChunk (args : DistributeArgs) (maxVolume : ℚ) : Nat :=
  (⌊(maxVolume - disposalVol args - airGapVol args) / args.volume⌋).toNat

/-- Fuel-driven worker for `chunksOf`; the fuel only needs to dominate the
list length and makes the recursion structural. -/
def chunksOfGo (n : Nat) : Nat → List α → List (List α)
  | _, [] => []
  | 0, _ :: _ => []
  | fuel + 1, x :: xs => (x :: xs.take (n - 1)) :: chunksOfGo n fuel (xs.drop (n - 1))

/-- Greedy partition of a list into consecutive chunks of width `n` (the
last chunk may be shorter); lodash `chunk` used by the source. -/
def chunksOf (n : Nat) (l : List α) : List (List α) := chunksOfGo n l.length l

/-- Commands for an optional plain delay (`delayCommand(seconds)` in the
test fixtures): emitted after mix sub-steps and after the air-gap aspirate. -/
def optDelaySeconds (o : Option DelayParams) : List Command :=
  match o with
  | none => []
  | some d => [Command.delay d.seconds]

/-- Commands for an optional delay at a position: move to the well at the
configured height, then wait (`delayWithOffset` in the test fixtures). -/
def delayWithOffset (lw w : String) (o : Option DelayParams) : List Command :=
  match o with
  | none => []
  | some d => [Command.moveToWell lw w 0 0 d.mmFromBottom, Command.delay d.seconds]

/-- Modelled from the spec: mix-before-aspirate sub-steps (section 4.3 step
4b), repeated `times` times at the source well before the chunk's main
aspirate.  The mix dispense goes back into the source at the aspirate
height; each half is followed by the corresponding configured delay. -/
def mixCommands (args : DistributeArgs) : List Command :=
  match args.mixBeforeAspirate with
  | none => []
  | some m =>
    (List.range m.times).flatMap fun _ =>
      [Command.aspirate args.sourceLabware args.sourceWell m.volume
          args.aspirateFlowRateUlSec args.aspirateOffsetFromBottomMm]
        ++ optDelaySeconds args.aspirateDelay
        ++ [Command.dispense args.sourceLabware args.sourceWell m.volume
            args.dispenseFlowRateUlSec args.aspirateOffsetFromBottomMm]
        ++ optDelaySeconds args.dispenseDelay

/-- Modelled from the spec: source-side commands of one chunk (section 4.3
steps 4c-4e): the shared aspirate of `chunkVol`, the optional positioned
delay, the optional touch-tip at the source, and the optional air-gap
aspirate taken 1 mm above the well top, followed by a plain delay when an
aspirate delay is configured.  Touch-tip precedes the air gap, as pinned by
the test "all advanced settings enabled". -/
def aspirateChunkCommands (args : DistributeArgs) (ctx : InvariantContext)
    (chunkVol : ℚ) : List Command :=
  [Command.aspirate args.sourceLabware args.sourceWell chunkVol
      args.aspirateFlowRateUlSec args.aspirateOffsetFromBottomMm]
    ++ delayWithOffset args.sourceLabware args.sourceWell args.aspirateDelay
    ++ (if args.touchTipAfterAspirate then
          [Command.touchTip args.sourceLabware args.sourceWell
            args.touchTipAfterAspirateOffsetMmFromBottom]
        else [])
    ++ (match args.aspirateAirGapVolume with
        | none => []
        | some g =>
          [Command.airGap args.sourceLabware args.sourceWell g
              args.aspirateFlowRateUlSec (wellDepth ctx args.sourceLabware + 1)]
            ++ optDelaySeconds args.aspirateDelay)

/-- Modelled from the spec: destination-side commands for one well of a
chunk (section 4.3 step 4f).  Only the first well of the chunk receives the
dispense-air-gap (1 mm above the well top), followed by the dispense delay
when configured; then the main dispense, the optional positioned dispense
delay, and the optional touch-tip — as pinned by the tests
"should delay after air gap aspirate and regular aspirate" and
"should delay after air gap dispense and regular dispense". -/
def dispenseOneWell (args : DistributeArgs) (ctx : InvariantContext)
    (first : Bool) (w : String) : List Command :=
  (match args.aspirateAirGapVolume with
   | none => []
   | some g =>
     if first then
       [Command.dispenseAirGap args.destLabware w g
           args.dispenseFlowRateUlSec (wellDepth ctx args.destLabware + 1)]
         ++ optDelaySeconds args.dispenseDelay
     else [])
    ++ [Command.dispense args.destLabware w args.volume
        args.dispenseFlowRateUlSec args.dispenseOffsetFromBottomMm]
    ++ delayWithOffset args.destLabware w args.dispenseDelay
    ++ (if args.touchTipAfterDispense then
          [Command.touchTip args.destLabware w
            args.touchTipAfterDispenseOffsetMmFromBottom]
        else [])

/-- Destination-side commands for all wells of a chunk, in order; the flag
tracks whether the next well is the first of the chunk. -/
def dispenseForWells (args : DistributeArgs) (ctx : InvariantContext) :
    Bool → List String → List Command
  | _, [] => []
  | first, w :: ws =>
    dispenseOneWell args ctx first w ++ dispenseForWells args ctx false ws

/-- Modelled from the spec: the blow-out closing a chunk (section 4.3 step
4g): emitted exactly when the disposal volume is positive, into the disposal
labware/well, at the blow-out flow rate and at the configured offset from
the well top. -/
def chunkBlowout (args : DistributeArgs) (ctx : InvariantContext) : Command :=
  Command.blowout (args.disposalLabware.getD FIXED_TRASH_ID)
    (args.disposalWell.getD "A1") args.blowoutFlowRateUlSec
    (wellDepth ctx (args.disposalLabware.getD FIXED_TRASH_ID)
      + args.blowoutOffsetFromTopMm)

def blowoutCommands (args : DistributeArgs) (ctx : InvariantContext) : List Command :=
  if 0 < disposalVol args then [chunkBlowout args ctx] else []

/-- Modelled from the spec: all commands of one chunk after tip handling
(section 4.3 step 4): mix sub-steps, the shared aspirate of
`chunk.length × volume + disposalVolume` with its source-side extras, the
per-well dispenses, and the closing blow-out.  Pre-wet tip is a documented
gap upstream (never implemented for distribute) and contributes nothing. -/
def chunkBody (args : DistributeArgs) (ctx : InvariantContext)
    (chunk : List String) : List Command :=
  mixCommands args
    ++ aspirateChunkCommands args ctx ((chunk.length : ℚ) * args.volume + disposalVol args)
    ++ dispenseForWells args ctx true chunk
    ++ blowoutCommands args ctx

/-- Association-list update of a per-well liquid volume by a signed delta. -/
def addLiquid (lw w : String) (d : ℚ) :
    List ((String × String) × ℚ) → List ((String × String) × ℚ)
  | [] => [((lw, w), d)]
  | (k, v) :: rest =>
    if k = (lw, w) then (k, v + d) :: rest else (k, v) :: addLiquid lw w d rest

/-- Modelled from the spec: the state transition of one atomic command
(section 4.1).  Aspirate/dispense move liquid out of/into the touched well;
air-gap commands are excluded from liquid bookkeeping; pick-up-tip consumes
the next tip-rack well and arms the pipette; drop-tip disarms it. -/
def applyCommand (st : RobotState) : Command → RobotState
  | Command.aspirate lw w v _ _ => { st with liquids := addLiquid lw w (-v) st.liquids }
  | Command.dispense lw w v _ _ => { st with liquids := addLiquid lw w v st.liquids }
  | Command.pickUpTip _ _ => { st with tipHeld := true, rack := st.rack.drop 1 }
  | Command.dropTip _ _ => { st with tipHeld := false }
  | _ => st

/-- Result-accumulator state threading: fold the atomic transitions over an
already validated command list (spec section 4.2). -/
def applyAll (cs : List Command) (st : RobotState) : RobotState :=
  cs.foldl applyCommand st

/-- Modelled from the spec: tip replacement before a chunk (section 4.3 step
5): drop the held tip (a no-op when none is held, per "drop (if held)") into
the fixed trash, then pick up the next unconsumed tip-rack well; fails with
INSUFFICIENT_TIPS when the rack is exhausted. -/
def tipChangeCommands (st : RobotState) : Except ErrorKind (List Command) :=
  match st.rack with
  | [] => Except.error ErrorKind.INSUFFICIENT_TIPS
  | w :: _ =>
    Except.ok ((if st.tipHeld then [Command.dropTip FIXED_TRASH_ID "A1"] else [])
      ++ [Command.pickUpTip TIPRACK_ID w])

/-- Whether the change-tip policy requires a tip replacement before the
current chunk (spec section 4.3 step 5). -/
def needsTipChange (policy : ChangeTip) (first : Bool) : Bool :=
  match policy with
  | ChangeTip.always => true
  | ChangeTip.once => first
  | ChangeTip.never => false

/-- Modelled from the spec: the per-chunk driver of distribute (section 4.3
step 4 with the step-5 tip state machine), threading the simulation state
and short-circuiting on the first fatal error, which discards all commands
accumulated so far (section 4.2).  Aspirating with no tip on the pipette
fails with INSUFFICIENT_TIPS (section 4.3 step 5, `never` case). -/
def distributeLoop (args : DistributeArgs) (ctx : InvariantContext) :
    List (List String) → RobotState → Bool →
      Except ErrorKind (List Command × RobotState)
  | [], st, _ => Except.ok ([], st)
  | chunk :: rest, st, first =>
    match (if needsTipChange args.changeTip first then tipChangeCommands st
           else Except.ok []) with
    | Except.error e => Except.error e
    | Except.ok tipCmds =>
      if (applyAll tipCmds st).tipHeld then
        match distributeLoop args ctx rest
            (applyAll (chunkBody args ctx chunk) (applyAll tipCmds st)) false with
        | Except.error e => Except.error e
        | Except.ok (out, st2) =>
          Except.ok (tipCmds ++ chunkBody args ctx chunk ++ out, st2)
      else Except.error ErrorKind.INSUFFICIENT_TIPS

/-- Modelled from the spec: the compound command creator `distribute`
(section 4.3), whose implementation file is absent from the checked-in
sources (only its test suite is present).  Validates the pipette, computes
the greedy chunk width (failing with PIPETTE_VOLUME_EXCEEDED before any
instruction when even one well's volume does not fit), partitions the
destination wells, and drives the per-chunk loop.  A failure carries its
error list and no instructions. -/
def distribute (args : DistributeArgs) (ctx : InvariantContext)
    (st : RobotState) : Except (List ErrorKind) (List Command × RobotState) :=
  match ctx.pipettes.lookup args.pipette with
  | none => Except.error [ErrorKind.PIPETTE_DOES_NOT_EXIST]
  | some spec =>
    let n := maxWellsPerChunk args spec.maxVolume
    if n = 0 then Except.error [ErrorKind.PIPETTE_VOLUME_EXCEEDED]
    else
      match distributeLoop args ctx (chunksOf n args.destWells) st true with
      | Except.error e => Except.error [e]
      | Except.ok r => Except.ok r

/-- Static context of the test fixtures: the single-channel 300 µL pipette,
source and destination 96-well plates of depth 10.54 mm, and the fixed
trash (depth 77 mm, giving the observed 80.3 mm blow-out height with the
default 3.3 mm offset from the top). -/
def ctxFix : InvariantContext :=
  { pipettes := [("p300SingleId", { maxVolume := 300, channels := 1 })],
    labware := [("sourcePlateId", { wellDepth := 10.54 }),
                ("destPlateId", { wellDepth := 10.54 }),
                ("trashId", { wellDepth := 77 })] }

/-- Baseline distribute arguments of the test suite (`mixinArgs` plus the
flow-rate/offset fixture defaults). -/
def mixinArgs : DistributeArgs :=
  { pipette := "p300SingleId"
    sourceLabware := "sourcePlateId"
    sourceWell := "A1"
    destLabware := "destPlateId"
    destWells := []
    volume := 0
    changeTip := ChangeTip.never
    disposalVolume := some 60
    disposalLabware := some FIXED_TRASH_ID
    disposalWell := some "A1"
    mixBeforeAspirate := none
    aspirateDelay := none
    dispenseDelay := none
    aspirateAirGapVolume := none
    touchTipAfterAspirate := false
    touchTipAfterDispense := false
    preWetTip := false
    aspirateFlowRateUlSec := 2.1
    dispenseFlowRateUlSec := 2.2
    blowoutFlowRateUlSec := 2.3
    aspirateOffsetFromBottomMm := 3.1
    dispenseOffsetFromBottomMm := 3.2
    touchTipAfterAspirateOffsetMmFromBottom := 3.4
    touchTipAfterDispenseOffsetMmFromBottom := 3.4
    blowoutOffsetFromTopMm := 3.3 }

/-- Initial robot state of most tests: the pipette already holds a tip and
the tip rack is fresh (`getRobotStateWithTipStandard`). -/
def stFix : RobotState :=
  { tipHeld := true, rack := ["A1", "B1", "C1", "D1", "E1", "F1"], liquids := [] }

/-- Initial robot state with no tip held and no tips remaining
(`getRobotInitialStateNoTipsRemain`). -/
def stNoTipsRemain : RobotState :=
  { tipHeld := false, rack := [], liquids := [] }

/-- Initial robot state with a tip held but only one unconsumed tip left. -/
def stOneTip : RobotState :=
  { tipHeld := true, rack := ["A1"], liquids := [] }

/-- Initial robot state with no tip held but a fresh tip rack. -/
def stNoTipHeld : RobotState :=
  { tipHeld := false, rack := ["A1", "B1", "C1", "D1", "E1", "F1"], liquids := [] }

/-- Arguments of the minimal example: 60 µL from A1 to A2 and A3,
change tip never, default disposal volume 60 to the fixed trash. -/
def argsC2 : DistributeArgs :=
  { mixinArgs with destWells := ["A2", "A3"], volume := 60 }

/-- Arguments of the air-gap chunking test: 100 µL to A2..A5 with a 5 µL
air gap, no disposal volume, change tip never. -/
def argsC3 : DistributeArgs :=
  { mixinArgs with
    destWells := ["A2", "A3", "A4", "A5"]
    volume := 100
    disposalVolume := some 0
    aspirateAirGapVolume := some 5 }

/-- Arguments exceeding pipette capacity with no disposal volume:
350 µL per well on the 300 µL pipette. -/
def argsC4a : DistributeArgs :=
  { mixinArgs with
    destWells := ["A2", "A3"]
    volume := 350
    changeTip := ChangeTip.once
    disposalVolume := none
    disposalLabware := none
    disposalWell := none }

/-- Arguments exceeding pipette capacity with a disposal volume:
250 µL per well plus 100 µL disposal on the 300 µL pipette. -/
def argsC4b : DistributeArgs :=
  { mixinArgs with
    destWells := ["A2", "A3"]
    volume := 250
    changeTip := ChangeTip.once
    disposalVolume := some 100 }

/-- Arguments forcing two single-well chunks with change tip always. -/
def argsC5 : DistributeArgs :=
  { mixinArgs with
    destWells := ["A2", "A3"]
    volume := 200
    changeTip := ChangeTip.always }

/-- Arguments forcing one chunk with change tip once. -/
def argsC5once : DistributeArgs :=
  { mixinArgs with
    destWells := ["A2"]
    volume := 60
    changeTip := ChangeTip.once }

/-- Arguments of the tip-exhaustion test: change tip always with no
unconsumed tip-rack well. -/
def argsC7 : DistributeArgs :=
  { mixinArgs with
    destWells := ["A2", "A3", "A4", "A5"]
    volume := 150
    changeTip := ChangeTip.always }

/-- Arguments of the air-gap-with-aspirate-delay test: 100 µL to A2..A5,
5 µL air gap, aspirate delay of 12 s at 14 mm, no disposal volume. -/
def argsC8 : DistributeArgs :=
  { mixinArgs with
    destWells := ["A2", "A3", "A4", "A5"]
    volume := 100
    disposalVolume := some 0
    aspirateAirGapVolume := some 5
    aspirateDelay := some { seconds := 12, mmFromBottom := 14 } }

/-- Registry entry of the fixture single-channel 300 µL pipette. -/
def p300Spec : PipetteSpec := { maxVolume := 300, channels := 1 }

/-- Instruction stream of the minimal example. -/
def outC2 : List Command :=
  [Command.aspirate "sourcePlateId" "A1" 180 2.1 3.1,
   Command.dispense "destPlateId" "A2" 60 2.2 3.2,
   Command.dispense "destPlateId" "A3" 60 2.2 3.2,
   Command.blowout "trashId" "A1" 2.3 80.3]

/-- Final state of the minimal example. -/
def stC2 : RobotState :=
  { tipHeld := true
    rack := ["A1", "B1", "C1", "D1", "E1", "F1"]
    liquids := [(("sourcePlateId", "A1"), -180), (("destPlateId", "A2"), 60),
                (("destPlateId", "A3"), 60)] }

/-- Instruction stream of the air-gap chunking example: two chunks of two
wells, each aspirating 200 µL plus a 5 µL air gap released into the chunk's
first well. -/
def outC3 : List Command :=
  [Command.aspirate "sourcePlateId" "A1" 200 2.1 3.1,
   Command.airGap "sourcePlateId" "A1" 5 2.1 11.54,
   Command.dispenseAirGap "destPlateId" "A2" 5 2.2 11.54,
   Command.dispense "destPlateId" "A2" 100 2.2 3.2,
   Command.dispense "destPlateId" "A3" 100 2.2 3.2,
   Command.aspirate "sourcePlateId" "A1" 200 2.1 3.1,
   Command.airGap "sourcePlateId" "A1" 5 2.1 11.54,
   Command.dispenseAirGap "destPlateId" "A4" 5 2.2 11.54,
   Command.dispense "destPlateId" "A4" 100 2.2 3.2,
   Command.dispense "destPlateId" "A5" 100 2.2 3.2]

/-- Final state of the air-gap chunking example. -/
def stC3 : RobotState :=
  { tipHeld := true
    rack := ["A1", "B1", "C1", "D1", "E1", "F1"]
    liquids := [(("sourcePlateId", "A1"), -400), (("destPlateId", "A2"), 100),
                (("destPlateId", "A3"), 100), (("destPlateId", "A4"), 100),
                (("destPlateId", "A5"), 100)] }

/-- Instruction stream of the change-tip-always example: a drop+pickup pair
before each single-well chunk. -/
def outC5 : List Command :=
  [Command.dropTip "trashId" "A1",
   Command.pickUpTip "tiprack1Id" "A1",
   Command.aspirate "sourcePlateId" "A1" 260 2.1 3.1,
   Command.dispense "destPlateId" "A2" 200 2.2 3.2,
   Command.blowout "trashId" "A1" 2.3 80.3,
   Command.dropTip "trashId" "A1",
   Command.pickUpTip "tiprack1Id" "B1",
   Command.aspirate "sourcePlateId" "A1" 260 2.1 3.1,
   Command.dispense "destPlateId" "A3" 200 2.2 3.2,
   Command.blowout "trashId" "A1" 2.3 80.3]

/-- Final state of the change-tip-always example. -/
def stC5 : RobotState :=
  { tipHeld := true
    rack := ["C1", "D1", "E1", "F1"]
    liquids := [(("sourcePlateId", "A1"), -520), (("destPlateId", "A2"), 200),
                (("destPlateId", "A3"), 200)] }

/-- Instruction stream of the air-gap-with-aspirate-delay example: the
delay after the air-gap aspirate uses aspirateDelay.seconds at the source,
while no delay separates the dispense-air-gap from the main dispense, and
only the first well of each chunk receives a dispense-air-gap. -/
def outC8 : List Command :=
  [Command.aspirate "sourcePlateId" "A1" 200 2.1 3.1,
   Command.moveToWell "sourcePlateId" "A1" 0 0 14,
   Command.delay 12,
   Command.airGap "sourcePlateId" "A1" 5 2.1 11.54,
   Command.delay 12,
   Command.dispenseAirGap "destPlateId" "A2" 5 2.2 11.54,
   Command.dispense "destPlateId" "A2" 100 2.2 3.2,
   Command.dispense "destPlateId" "A3" 100 2.2 3.2,
   Command.aspirate "sourcePlateId" "A1" 200 2.1 3.1,
   Command.moveToWell "sourcePlateId" "A1" 0 0 14,
   Command.delay 12,
   Command.airGap "sourcePlateId" "A1" 5 2.1 11.54,
   Command.delay 12,
   Command.dispenseAirGap "destPlateId" "A4" 5 2.2 11.54,
   Command.dispense "destPlateId" "A4" 100 2.2 3.2,
   Command.dispense "destPlateId" "A5" 100 2.2 3.2]

/-- Final state of the air-gap-with-aspirate-delay example. -/
def stC8 : RobotState :=
  { tipHeld := true
    rack := ["A1", "B1", "C1", "D1", "E1", "F1"]
    liquids := [(("sourcePlateId", "A1"), -400), (("destPlateId", "A2"), 100),
                (("destPlateId", "A3"), 100), (("destPlateId", "A4"), 100),
                (("destPlateId", "A5"), 100)] }

/-- Recognizer for aspirate instructions. -/
def isAspirateCmd : Command → Bool
  | Command.aspirate _ _ _ _ _ => true
  | _ => false

/-- Recognizer for dispense instructions. -/
def isDispenseCmd : Command → Bool
  | Command.dispense _ _ _ _ _ => true
  | _ => false

/-- Recognizer for air-gap aspirate instructions. -/
def isAirGapCmd : Command → Bool
  | Command.airGap _ _ _ _ _ => true
  | _ => false

/-- Recognizer for dispense-air-gap instructions. -/
def isDispenseAirGapCmd : Command → Bool
  | Command.dispenseAirGap _ _ _ _ _ => true
  | _ => false

/-- Recognizer for blow-out instructions. -/
def isBlowoutCmd : Command → Bool
  | Command.blowout _ _ _ _ => true
  | _ => false

/-- Recognizer for pick-up-tip instructions. -/
def isPickUpTipCmd : Command → Bool
  | Command.pickUpTip _ _ => true
  | _ => false

/-- Recognizer for drop-tip instructions. -/
def isDropTipCmd : Command → Bool
  | Command.dropTip _ _ => true
  | _ => false

/-- Recognizer for either tip-handling instruction. -/
def isTipCmd (c : Command) : Bool := isPickUpTipCmd c || isDropTipCmd c

/-- Commands that are neither tip handling, nor blow-out, nor air-gap
related: the bulk instructions every segment may contain. -/
def basicCmd : Command → Bool
  | Command.aspirate _ _ _ _ _ => true
  | Command.dispense _ _ _ _ _ => true
  | Command.delay _ => true
  | Command.moveToWell _ _ _ _ _ => true
  | Command.touchTip _ _ _ => true
  | _ => false

/-- Destination well of a dispense-air-gap instruction. -/
def dagWell : Command → Option String
  | Command.dispenseAirGap _ w _ _ _ => some w
  | _ => none

/-- Whether the head command, when it matches `p`, is properly followed by
its successor according to `r` (false for a trailing `p`-command). -/
def nextOk (p : Command → Bool) (r : Command → Command → Bool) (c : Command) :
    List Command → Bool
  | [] => !p c
  | d :: _ => !p c || r c d

/-- Adjacency invariant: every command matching `p` is immediately followed
by a command related to it by `r`. -/
def adjRel (p : Command → Bool) (r : Command → Command → Bool) :
    List Command → Bool
  | [] => true
  | c :: rest => nextOk p r c rest && adjRel p r rest

/-- The command expected right after a dispense-air-gap: the dispense delay
when one is configured, else the main dispense into the same well. -/
def dagFollows (args : DistributeArgs) (c d : Command) : Bool :=
  match args.dispenseDelay with
  | some dp => d == Command.delay dp.seconds
  | none =>
    match c, d with
    | Command.dispenseAirGap _ w _ _ _, Command.dispense _ w2 _ _ _ => w == w2
    | _, _ => false

theorem chunksOfGo_congr (n : Nat) :
    ∀ f1 f2 : Nat, ∀ l : List α, l.length ≤ f1 → l.length ≤ f2 →
      chunksOfGo n f1 l = chunksOfGo n f2 l := by
  intro f1
  induction f1 with
  | zero =>
    intro f2 l h1 _
    have : l = [] := List.eq_nil_of_length_eq_zero (Nat.le_zero.mp h1)
    subst this
    cases f2 <;> rfl
  | succ f ih =>
    intro f2 l h1 h2
    cases l with
    | nil => cases f2 <;> rfl
    | cons x xs =>
      cases f2 with
      | zero => exact absurd h2 (by simp)
      | succ f2 =>
        simp only [chunksOfGo]
        simp only [List.length_cons] at h1 h2
        refine congrArg _ (ih f2 (xs.drop (n - 1)) ?_ ?_) <;>
          · have := List.length_drop (n - 1) xs
            omega

@[simp] theorem chunksOf_nil (n : Nat) : chunksOf n ([] : List α) = [] := rfl

theorem chunksOf_cons (n : Nat) (x : α) (xs : List α) :
    chunksOf n (x :: xs) = (x :: xs.take (n - 1)) :: chunksOf n (xs.drop (n - 1)) := by
  simp only [chunksOf, List.length_cons, chunksOfGo]
  refine congrArg _ (chunksOfGo_congr n xs.length (xs.drop (n - 1)).length _ ?_ le_rfl)
  simp [List.length_drop]

theorem chunksOf_ne_nil (n : Nat) (x : α) (xs : List α) :
    chunksOf n (x :: xs) ≠ [] := by
  rw [chunksOf_cons]
  exact List.cons_ne_nil _ _

theorem mem_chunksOfGo (hn : n ≠ 0) :
    ∀ fuel : Nat, ∀ l : List α, l.length ≤ fuel →
      ∀ c ∈ chunksOfGo n fuel l, c.length ≤ n ∧ c ≠ [] := by
  intro fuel
  induction fuel with
  | zero =>
    intro l hl c hc
    cases l with
    | nil => simp [chunksOfGo] at hc
    | cons x xs => simp at hl
  | succ f ih =>
    intro l hl c hc
    cases l with
    | nil => simp [chunksOfGo] at hc
    | cons x xs =>
      simp only [chunksOfGo] at hc
      rcases List.mem_cons.mp hc with h | h
      · subst h
        refine ⟨?_, List.cons_ne_nil _ _⟩
        simp only [List.length_cons, List.length_take]
        omega
      · refine ih (xs.drop (n - 1)) ?_ c h
        have := List.length_drop (n - 1) xs
        simp only [List.length_cons] at hl
        omega

theorem mem_chunksOf (hn : n ≠ 0) (l : List α) :
    ∀ c ∈ chunksOf n l, c.length ≤ n ∧ c ≠ [] :=
  mem_chunksOfGo hn l.length l le_rfl

theorem chunksOfGo_getD_length (hn : n ≠ 0) :
    ∀ fuel : Nat, ∀ l : List α, l.length ≤ fuel → ∀ i : Nat,
      i + 1 < (chunksOfGo n fuel l).length →
      ((chunksOfGo n fuel l).getD i []).length = n := by
  intro fuel
  induction fuel with
  | zero =>
    intro l hl i hi
    cases l with
    | nil => simp [chunksOfGo] at hi
    | cons x xs => simp at hl
  | succ f ih =>
    intro l hl i hi
    cases l with
    | nil => simp [chunksOfGo] at hi
    | cons x xs =>
      simp only [chunksOfGo] at hi ⊢
      have hxs : xs.length ≤ f := by
        simp only [List.length_cons] at hl
        omega
      have hdl : (xs.drop (n - 1)).length ≤ f := by
        have := List.length_drop (n - 1) xs
        omega
      cases i with
      | zero =>
        simp only [List.length_cons] at hi
        have hrest : chunksOfGo n f (xs.drop (n - 1)) ≠ [] := by
          intro hcontra
          rw [hcontra] at hi
          simp at hi
        have hdrop : xs.drop (n - 1) ≠ [] := by
          intro hcontra
          rw [hcontra] at hrest
          cases f <;> exact hrest rfl
        have hlen : n - 1 < xs.length := by
          by_contra hcon
          exact hdrop (List.drop_eq_nil_of_le (Nat.le_of_not_lt hcon))
        simp only [List.getD_cons_zero, List.length_cons, List.length_take]
        omega
      | succ i =>
        have h2 : i + 1 < (chunksOfGo n f (xs.drop (n - 1))).length := by
          simpa using hi
        have := ih (xs.drop (n - 1)) hdl i h2
        simpa [List.getD_cons_succ] using this

theorem chunksOf_getD_length (hn : n ≠ 0) (l : List α) (i : Nat)
    (hi : i + 1 < (chunksOf n l).length) :
    ((chunksOf n l).getD i []).length = n :=
  chunksOfGo_getD_length hn l.length l le_rfl i hi

theorem chunksOf_headD_length (hn : n ≠ 0) :
    ∀ l : List α, ∀ c ∈ chunksOf n l, c.length ≤ ((chunksOf n l).headD []).length := by
  intro l c hc
  cases l with
  | nil => simp at hc
  | cons x xs =>
    rw [chunksOf_cons] at hc ⊢
    simp only [List.headD_cons]
    rcases List.mem_cons.mp hc with h | h
    · subst h; exact le_rfl
    · have hdrop : xs.drop (n - 1) ≠ [] := by
        intro hcontra
        rw [hcontra] at h
        simp at h
      have hlen : n - 1 < xs.length := by
        by_contra hcon
        exact hdrop (List.drop_eq_nil_of_le (Nat.le_of_not_lt hcon))
      have hcle := (mem_chunksOf hn (xs.drop (n - 1)) c h).1
      simp only [List.length_cons, List.length_take]
      omega

theorem basic_not_tip {c : Command} (h : basicCmd c = true) : isTipCmd c = false := by
  cases c <;> simp_all [basicCmd, isTipCmd, isPickUpTipCmd, isDropTipCmd]

theorem basic_not_blowout {c : Command} (h : basicCmd c = true) : isBlowoutCmd c = false := by
  cases c <;> simp_all [basicCmd, isBlowoutCmd]

theorem basic_not_dag {c : Command} (h : basicCmd c = true) :
    isDispenseAirGapCmd c = false := by
  cases c <;> simp_all [basicCmd, isDispenseAirGapCmd]

theorem basic_dagWell {c : Command} (h : basicCmd c = true) : dagWell c = none := by
  cases c <;> simp_all [basicCmd, dagWell]

theorem mem_optDelaySeconds {o : Option DelayParams} :
    ∀ c ∈ optDelaySeconds o, basicCmd c = true := by
  intro c hc
  cases o with
  | none => simp [optDelaySeconds] at hc
  | some d =>
    simp only [optDelaySeconds, List.mem_singleton] at hc
    subst hc
    rfl

theorem mem_delayWithOffset {lw w : String} {o : Option DelayParams} :
    ∀ c ∈ delayWithOffset lw w o, basicCmd c = true := by
  intro c hc
  cases o with
  | none => simp [delayWithOffset] at hc
  | some d =>
    simp only [delayWithOffset, List.mem_cons, List.mem_singleton] at hc
    rcases hc with h | h | h
    · subst h; rfl
    · subst h; rfl
    · simp at h

theorem mem_mixCommands {args : DistributeArgs} :
    ∀ c ∈ mixCommands args, basicCmd c = true := by
  intro c hc
  cases hmix : args.mixBeforeAspirate with
  | none => simp [mixCommands, hmix] at hc
  | some m =>
    simp only [mixCommands, hmix, List.mem_flatMap, List.mem_range] at hc
    obtain ⟨i, _, hci⟩ := hc
    rcases List.mem_append.mp hci with h | h
    · rcases List.mem_append.mp h with h | h
      · rcases List.mem_append.mp h with h | h
        · rw [List.mem_singleton.mp h]; rfl
        · exact mem_optDelaySeconds c h
      · rw [List.mem_singleton.mp h]; rfl
    · exact mem_optDelaySeconds c h

theorem mem_aspirateChunkCommands {args : DistributeArgs} {ctx : InvariantContext}
    {v : ℚ} :
    ∀ c ∈ aspirateChunkCommands args ctx v, basicCmd c = true ∨
      ∃ g, args.aspirateAirGapVolume = some g ∧
        c = Command.airGap args.sourceLabware args.sourceWell g
          args.aspirateFlowRateUlSec (wellDepth ctx args.sourceLabware + 1) := by
  intro c hc
  rw [aspirateChunkCommands] at hc
  rcases List.mem_append.mp hc with h | h
  · rcases List.mem_append.mp h with h | h
    · rcases List.mem_append.mp h with h | h
      · rw [List.mem_singleton.mp h]; exact Or.inl rfl
      · exact Or.inl (mem_delayWithOffset c h)
    · rcases ht : args.touchTipAfterAspirate with _ | _ <;> rw [ht] at h
      · simp at h
      · rw [if_pos rfl] at h
        rw [List.mem_singleton.mp h]
        exact Or.inl rfl
  · cases hg : args.aspirateAirGapVolume with
    | none => rw [hg] at h; simp at h
    | some g =>
      rw [hg] at h
      rcases List.mem_append.mp h with h | h
      · rw [List.mem_singleton.mp h]
        exact Or.inr ⟨g, rfl, rfl⟩
      · exact Or.inl (mem_optDelaySeconds c h)

theorem mem_dispenseOneWell {args : DistributeArgs} {ctx : InvariantContext}
    {first : Bool} {w : String} :
    ∀ c ∈ dispenseOneWell args ctx first w, basicCmd c = true ∨
      ∃ g, args.aspirateAirGapVolume = some g ∧
        c = Command.dispenseAirGap args.destLabware w g
          args.dispenseFlowRateUlSec (wellDepth ctx args.destLabware + 1) := by
  intro c hc
  rw [dispenseOneWell] at hc
  rcases List.mem_append.mp hc with h | h
  · rcases List.mem_append.mp h with h | h
    · rcases List.mem_append.mp h with h | h
      · cases hg : args.aspirateAirGapVolume with
        | none => rw [hg] at h; simp at h
        | some g =>
          rcases first with _ | _
          · rw [hg] at h; simp at h
          · rw [hg] at h
            simp only [List.cons_append, List.nil_append, if_true,
              List.mem_cons] at h
            rcases h with h | h
            · subst h; exact Or.inr ⟨g, rfl, rfl⟩
            · exact Or.inl (mem_optDelaySeconds c h)
      · rw [List.mem_singleton.mp h]; exact Or.inl rfl
    · exact Or.inl (mem_delayWithOffset c h)
  · rcases ht : args.touchTipAfterDispense with _ | _ <;> rw [ht] at h
    · simp at h
    · rw [if_pos rfl] at h
      rw [List.mem_singleton.mp h]
      exact Or.inl rfl

theorem mem_dispenseForWells {args : DistributeArgs} {ctx : InvariantContext} :
    ∀ first : Bool, ∀ ws : List String,
      ∀ c ∈ dispenseForWells args ctx first ws, basicCmd c = true ∨
        ∃ w ∈ ws, ∃ g, args.aspirateAirGapVolume = some g ∧
          c = Command.dispenseAirGap args.destLabware w g
            args.dispenseFlowRateUlSec (wellDepth ctx args.destLabware + 1) := by
  intro first ws
  induction ws generalizing first with
  | nil => intro c hc; simp [dispenseForWells] at hc
  | cons w ws ih =>
    intro c hc
    simp only [dispenseForWells, List.mem_append] at hc
    rcases hc with h | h
    · rcases mem_dispenseOneWell c h with h1 | ⟨g, hg, hceq⟩
      · exact Or.inl h1
      · exact Or.inr ⟨w, List.mem_cons_self _ _, g, hg, hceq⟩
    · rcases ih false c h with h1 | ⟨w2, hw2, g, hg, hceq⟩
      · exact Or.inl h1
      · exact Or.inr ⟨w2, List.mem_cons_of_mem _ hw2, g, hg, hceq⟩

theorem mem_blowoutCommands {args : DistributeArgs} {ctx : InvariantContext} :
    ∀ c ∈ blowoutCommands args ctx, c = chunkBlowout args ctx := by
  intro c hc
  by_cases hd : 0 < disposalVol args
  · simp only [blowoutCommands, if_pos hd, List.mem_singleton] at hc
    exact hc
  · simp [blowoutCommands, if_neg hd] at hc

theorem mem_chunkBody {args : DistributeArgs} {ctx : InvariantContext}
    {chunk : List String} :
    ∀ c ∈ chunkBody args ctx chunk, basicCmd c = true ∨
      (∃ g, args.aspirateAirGapVolume = some g ∧
        c = Command.airGap args.sourceLabware args.sourceWell g
          args.aspirateFlowRateUlSec (wellDepth ctx args.sourceLabware + 1)) ∨
      (∃ w ∈ chunk, ∃ g, args.aspirateAirGapVolume = some g ∧
        c = Command.dispenseAirGap args.destLabware w g
          args.dispenseFlowRateUlSec (wellDepth ctx args.destLabware + 1)) ∨
      c = chunkBlowout args ctx := by
  intro c hc
  simp only [chunkBody, List.append_assoc, List.mem_append] at hc
  rcases hc with h | h
  · exact Or.inl (mem_mixCommands c h)
  rcases h with h | h
  · rcases mem_aspirateChunkCommands c h with h1 | h1
    · exact Or.inl h1
    · exact Or.inr (Or.inl h1)
  rcases h with h | h
  · rcases mem_dispenseForWells true chunk c h with h1 | h1
    · exact Or.inl h1
    · exact Or.inr (Or.inr (Or.inl h1))
  · exact Or.inr (Or.inr (Or.inr (mem_blowoutCommands c h)))

theorem chunkBody_no_tip {args : DistributeArgs} {ctx : InvariantContext}
    {chunk : List String} :
    ∀ c ∈ chunkBody args ctx chunk, isTipCmd c = false := by
  intro c hc
  rcases mem_chunkBody c hc with h | ⟨g, _, h⟩ | ⟨w, _, g, _, h⟩ | h
  · exact basic_not_tip h
  · subst h; rfl
  · subst h; rfl
  · subst h; rfl

theorem chunkBody_no_blowout_of_zero {args : DistributeArgs}
    {ctx : InvariantContext} {chunk : List String}
    (hd : ¬0 < disposalVol args) :
    ∀ c ∈ chunkBody args ctx chunk, isBlowoutCmd c = false := by
  intro c hc
  simp only [chunkBody, List.append_assoc, List.mem_append] at hc
  rcases hc with h | h | h | h
  · exact basic_not_blowout (mem_mixCommands c h)
  · rcases mem_aspirateChunkCommands c h with h1 | ⟨g, _, h1⟩
    · exact basic_not_blowout h1
    · subst h1; rfl
  · rcases mem_dispenseForWells true chunk c h with h1 | ⟨w, _, g, _, h1⟩
    · exact basic_not_blowout h1
    · subst h1; rfl
  · simp [blowoutCommands, if_neg hd] at h

theorem applyCommand_not_tip {st : RobotState} {c : Command}
    (h : isTipCmd c = false) :
    (applyCommand st c).tipHeld = st.tipHeld ∧ (applyCommand st c).rack = st.rack := by
  cases c <;> simp_all [applyCommand, isTipCmd, isPickUpTipCmd, isDropTipCmd]

theorem applyAll_not_tip :
    ∀ cs : List Command, (∀ c ∈ cs, isTipCmd c = false) → ∀ st : RobotState,
      (applyAll cs st).tipHeld = st.tipHeld ∧ (applyAll cs st).rack = st.rack := by
  intro cs
  induction cs with
  | nil => intro _ st; exact ⟨rfl, rfl⟩
  | cons c cs ih =>
    intro h st
    have h1 := @applyCommand_not_tip st c (h c (List.mem_cons_self _ _))
    have h2 := ih (fun d hd => h d (List.mem_cons_of_mem _ hd)) (applyCommand st c)
    simp only [applyAll, List.foldl_cons] at h2 ⊢
    exact ⟨h2.1.trans h1.1, h2.2.trans h1.2⟩

theorem tipChange_ok {st : RobotState} {tc : List Command}
    (h : tipChangeCommands st = Except.ok tc) :
    ∃ w rest, st.rack = w :: rest ∧
      tc = (if st.tipHeld then [Command.dropTip FIXED_TRASH_ID "A1"] else [])
        ++ [Command.pickUpTip TIPRACK_ID w] := by
  cases hr : st.rack with
  | nil => rw [tipChangeCommands, hr] at h; exact absurd h (by simp)
  | cons w rest =>
    rw [tipChangeCommands, hr] at h
    injection h with h
    exact ⟨w, rest, rfl, h.symm⟩

theorem applyAll_tipPair {st : RobotState} {w : String} :
    (applyAll ((if st.tipHeld then [Command.dropTip FIXED_TRASH_ID "A1"] else [])
      ++ [Command.pickUpTip TIPRACK_ID w]) st).tipHeld = true := by
  cases h : st.tipHeld <;> simp [h, applyAll, applyCommand]

theorem applyAll_tipPair_rack {st : RobotState} {w : String} :
    (applyAll ((if st.tipHeld then [Command.dropTip FIXED_TRASH_ID "A1"] else [])
      ++ [Command.pickUpTip TIPRACK_ID w]) st).rack = st.rack.drop 1 := by
  cases h : st.tipHeld <;> simp [h, applyAll, applyCommand]

theorem distributeLoop_cons_ok {args : DistributeArgs} {ctx : InvariantContext}
    {chunk : List String} {rest : List (List String)} {st : RobotState}
    {first : Bool} {out : List Command} {st2 : RobotState}
    (h : distributeLoop args ctx (chunk :: rest) st first = Except.ok (out, st2)) :
    ∃ tipCmds out1,
      (if needsTipChange args.changeTip first then tipChangeCommands st
       else Except.ok []) = Except.ok tipCmds ∧
      (applyAll tipCmds st).tipHeld = true ∧
      distributeLoop args ctx rest
        (applyAll (chunkBody args ctx chunk) (applyAll tipCmds st)) false
        = Except.ok (out1, st2) ∧
      out = tipCmds ++ chunkBody args ctx chunk ++ out1 := by
  rw [distributeLoop] at h
  split at h
  · exact absurd h (by simp)
  case _ tc heq =>
    split at h
    case _ htip =>
      split at h
      · exact absurd h (by simp)
      case _ out1 st2' heq2 =>
        injection h with h
        injection h with h1 h2
        subst h1
        subst h2
        exact ⟨tc, out1, heq, htip, heq2, rfl⟩
    · exact absurd h (by simp)

theorem distributeLoop_nil_ok {args : DistributeArgs} {ctx : InvariantContext}
    {st : RobotState} {first : Bool} {out : List Command} {st2 : RobotState}
    (h : distributeLoop args ctx [] st first = Except.ok (out, st2)) :
    out = [] ∧ st2 = st := by
  rw [distributeLoop] at h
  injection h with h
  injection h with h1 h2
  exact ⟨h1.symm, h2.symm⟩

theorem tipCmds_shape {args : DistributeArgs} {st : RobotState} {first : Bool}
    {tc : List Command}
    (htc : (if needsTipChange args.changeTip first then tipChangeCommands st
            else Except.ok []) = Except.ok tc) :
    tc = [] ∨ ∃ w, tc = (if st.tipHeld then [Command.dropTip FIXED_TRASH_ID "A1"]
      else []) ++ [Command.pickUpTip TIPRACK_ID w] := by
  by_cases hn : needsTipChange args.changeTip first = true
  · rw [if_pos hn] at htc
    obtain ⟨w, rest, _, hshape⟩ := tipChange_ok htc
    exact Or.inr ⟨w, hshape⟩
  · rw [if_neg hn] at htc
    injection htc with htc
    exact Or.inl htc.symm

theorem tipCmds_all_tip {args : DistributeArgs} {st : RobotState} {first : Bool}
    {tc : List Command}
    (htc : (if needsTipChange args.changeTip first then tipChangeCommands st
            else Except.ok []) = Except.ok tc) :
    ∀ c ∈ tc, isTipCmd c = true := by
  rcases tipCmds_shape htc with h | ⟨w, h⟩
  · subst h; intro c hc; simp at hc
  · subst h
    intro c hc
    rcases List.mem_append.mp hc with h1 | h1
    · cases hh : st.tipHeld <;> rw [hh] at h1
      · simp at h1
      · rw [List.mem_singleton.mp h1]; rfl
    · rw [List.mem_singleton.mp h1]; rfl

theorem tip_not_blowout {c : Command} (h : isTipCmd c = true) :
    isBlowoutCmd c = false := by
  cases c <;> simp_all [isTipCmd, isPickUpTipCmd, isDropTipCmd, isBlowoutCmd]

theorem tip_not_dag {c : Command} (h : isTipCmd c = true) :
    isDispenseAirGapCmd c = false := by
  cases c <;> simp_all [isTipCmd, isPickUpTipCmd, isDropTipCmd, isDispenseAirGapCmd]

theorem tip_dagWell {c : Command} (h : isTipCmd c = true) : dagWell c = none := by
  cases c <;> simp_all [isTipCmd, isPickUpTipCmd, isDropTipCmd, dagWell]

theorem pickup_is_tip {c : Command} (h : isPickUpTipCmd c = true) :
    isTipCmd c = true := by
  simp [isTipCmd, h]

theorem drop_is_tip {c : Command} (h : isDropTipCmd c = true) :
    isTipCmd c = true := by
  simp [isTipCmd, h]

theorem chunkBody_countP_tip_zero {args : DistributeArgs} {ctx : InvariantContext}
    {chunk : List String} : (chunkBody args ctx chunk).countP isTipCmd = 0 :=
  List.countP_eq_zero.mpr (by
    intro c hc
    simp [chunkBody_no_tip c hc])

theorem chunkBody_countP_pickup_zero {args : DistributeArgs}
    {ctx : InvariantContext} {chunk : List String} :
    (chunkBody args ctx chunk).countP isPickUpTipCmd = 0 :=
  List.countP_eq_zero.mpr (by
    intro c hc
    have := chunkBody_no_tip c hc
    simp only [isTipCmd, Bool.or_eq_false_iff] at this
    simp [this.1])

theorem chunkBody_countP_drop_zero {args : DistributeArgs}
    {ctx : InvariantContext} {chunk : List String} :
    (chunkBody args ctx chunk).countP isDropTipCmd = 0 :=
  List.countP_eq_zero.mpr (by
    intro c hc
    have := chunkBody_no_tip c hc
    simp only [isTipCmd, Bool.or_eq_false_iff] at this
    simp [this.2])

theorem chunkBody_countP_blowout {args : DistributeArgs} {ctx : InvariantContext}
    {chunk : List String} :
    (chunkBody args ctx chunk).countP isBlowoutCmd
      = if 0 < disposalVol args then 1 else 0 := by
  rw [chunkBody]
  rw [List.countP_append, List.countP_append, List.countP_append]
  have hmix : (mixCommands args).countP isBlowoutCmd = 0 :=
    List.countP_eq_zero.mpr (by
      intro c hc
      simp [basic_not_blowout (mem_mixCommands c hc)])
  have hasp : (aspirateChunkCommands args ctx
      ((chunk.length : ℚ) * args.volume + disposalVol args)).countP isBlowoutCmd = 0 :=
    List.countP_eq_zero.mpr (by
      intro c hc
      rcases mem_aspirateChunkCommands c hc with h | ⟨g, _, h⟩
      · simp [basic_not_blowout h]
      · subst h; simp [isBlowoutCmd])
  have hdfw : (dispenseForWells args ctx true chunk).countP isBlowoutCmd = 0 :=
    List.countP_eq_zero.mpr (by
      intro c hc
      rcases mem_dispenseForWells true chunk c hc with h | ⟨w, _, g, _, h⟩
      · simp [basic_not_blowout h]
      · subst h; simp [isBlowoutCmd])
  rw [hmix, hasp, hdfw]
  by_cases hd : 0 < disposalVol args
  · simp [blowoutCommands, if_pos hd, List.countP_cons, isBlowoutCmd, chunkBlowout]
  · simp [blowoutCommands, if_neg hd, hd]

theorem tipCmds_countP_blowout_zero {args : DistributeArgs} {st : RobotState}
    {first : Bool} {tc : List Command}
    (htc : (if needsTipChange args.changeTip first then tipChangeCommands st
            else Except.ok []) = Except.ok tc) :
    tc.countP isBlowoutCmd = 0 :=
  List.countP_eq_zero.mpr (by
    intro c hc
    simp [tip_not_blowout (tipCmds_all_tip htc c hc)])

theorem distributeLoop_countP_blowout {args : DistributeArgs}
    {ctx : InvariantContext} :
    ∀ chunks : List (List String), ∀ st first out st2,
      distributeLoop args ctx chunks st first = Except.ok (out, st2) →
      out.countP isBlowoutCmd
        = chunks.length * (if 0 < disposalVol args then 1 else 0) := by
  intro chunks
  induction chunks with
  | nil =>
    intro st first out st2 h
    rw [(distributeLoop_nil_ok h).1]
    simp
  | cons chunk rest ih =>
    intro st first out st2 h
    obtain ⟨tc, out1, htc, _, hrec, hout⟩ := distributeLoop_cons_ok h
    subst hout
    rw [List.countP_append, List.countP_append,
      tipCmds_countP_blowout_zero htc, chunkBody_countP_blowout, ih _ _ _ _ hrec]
    by_cases hd : 0 < disposalVol args
    · simp only [hd, if_true, List.length_cons]
      ring
    · simp [hd]

theorem distributeLoop_never {args : DistributeArgs} {ctx : InvariantContext}
    (hct : args.changeTip = ChangeTip.never) :
    ∀ chunks : List (List String), ∀ st first out st2,
      distributeLoop args ctx chunks st first = Except.ok (out, st2) →
      out.countP isTipCmd = 0 := by
  intro chunks
  induction chunks with
  | nil =>
    intro st first out st2 h
    rw [(distributeLoop_nil_ok h).1]
    rfl
  | cons chunk rest ih =>
    intro st first out st2 h
    obtain ⟨tc, out1, htc, _, hrec, hout⟩ := distributeLoop_cons_ok h
    have hn : needsTipChange args.changeTip first = false := by rw [hct]; rfl
    rw [hn] at htc
    simp only [Bool.false_eq_true, if_false, Except.ok.injEq] at htc
    subst hout
    rw [← htc]
    rw [List.countP_append, List.countP_append]
    rw [chunkBody_countP_tip_zero, ih _ _ _ _ hrec]
    rfl

theorem distributeLoop_once_tail {args : DistributeArgs} {ctx : InvariantContext}
    (hct : args.changeTip = ChangeTip.once) :
    ∀ chunks : List (List String), ∀ st out st2,
      distributeLoop args ctx chunks st false = Except.ok (out, st2) →
      out.countP isTipCmd = 0 := by
  intro chunks
  induction chunks with
  | nil =>
    intro st out st2 h
    rw [(distributeLoop_nil_ok h).1]
    rfl
  | cons chunk rest ih =>
    intro st out st2 h
    obtain ⟨tc, out1, htc, _, hrec, hout⟩ := distributeLoop_cons_ok h
    have hn : needsTipChange args.changeTip false = false := by rw [hct]; rfl
    rw [hn] at htc
    simp only [Bool.false_eq_true, if_false, Except.ok.injEq] at htc
    subst hout
    rw [← htc]
    rw [List.countP_append, List.countP_append]
    rw [chunkBody_countP_tip_zero, ih _ _ _ hrec]
    rfl

theorem tipPair_countP_pickup {st : RobotState} {w : String} :
    ((if st.tipHeld then [Command.dropTip FIXED_TRASH_ID "A1"] else [])
      ++ [Command.pickUpTip TIPRACK_ID w]).countP isPickUpTipCmd = 1 := by
  cases st.tipHeld <;>
    simp [List.countP_append, List.countP_cons, isPickUpTipCmd]

theorem tipPair_countP_drop {st : RobotState} {w : String} :
    ((if st.tipHeld then [Command.dropTip FIXED_TRASH_ID "A1"] else [])
      ++ [Command.pickUpTip TIPRACK_ID w]).countP isDropTipCmd
      = if st.tipHeld then 1 else 0 := by
  cases st.tipHeld <;>
    simp [List.countP_append, List.countP_cons, isDropTipCmd, isPickUpTipCmd]

theorem distributeLoop_always {args : DistributeArgs} {ctx : InvariantContext}
    (hct : args.changeTip = ChangeTip.always) :
    ∀ chunks : List (List String), ∀ st first out st2,
      distributeLoop args ctx chunks st first = Except.ok (out, st2) →
      out.countP isPickUpTipCmd = chunks.length ∧
      out.countP isDropTipCmd
        = chunks.length - (if st.tipHeld then 0 else 1) := by
  intro chunks
  induction chunks with
  | nil =>
    intro st first out st2 h
    rw [(distributeLoop_nil_ok h).1]
    cases st.tipHeld <;> simp
  | cons chunk rest ih =>
    intro st first out st2 h
    obtain ⟨tc, out1, htc, htip, hrec, hout⟩ := distributeLoop_cons_ok h
    have hn : needsTipChange args.changeTip first = true := by rw [hct]; rfl
    rw [hn] at htc
    simp only [if_true] at htc
    obtain ⟨w, rack2, hrack, hshape⟩ := tipChange_ok htc
    have hrest : (applyAll (chunkBody args ctx chunk) (applyAll tc st)).tipHeld
        = true := by
      rw [(applyAll_not_tip _ chunkBody_no_tip (applyAll tc st)).1, htip]
    have hih := ih _ _ _ _ hrec
    rw [hrest] at hih
    simp only [if_true] at hih
    subst hout
    subst hshape
    constructor
    · rw [List.countP_append, List.countP_append, tipPair_countP_pickup,
        chunkBody_countP_pickup_zero, hih.1]
      simp only [List.length_cons]
      omega
    · rw [List.countP_append, List.countP_append, tipPair_countP_drop,
        chunkBody_countP_drop_zero, hih.2]
      cases hh : st.tipHeld
      all_goals simp
      all_goals omega

theorem distributeLoop_once_head {args : DistributeArgs} {ctx : InvariantContext}
    (hct : args.changeTip = ChangeTip.once) {chunk : List String}
    {rest : List (List String)} {st : RobotState} {out : List Command}
    {st2 : RobotState}
    (h : distributeLoop args ctx (chunk :: rest) st true = Except.ok (out, st2)) :
    ∃ w tail, out = (if st.tipHeld then [Command.dropTip FIXED_TRASH_ID "A1"]
      else []) ++ Command.pickUpTip TIPRACK_ID w :: tail ∧
      tail.countP isTipCmd = 0 := by
  obtain ⟨tc, out1, htc, _, hrec, hout⟩ := distributeLoop_cons_ok h
  have hn : needsTipChange args.changeTip true = true := by rw [hct]; rfl
  rw [hn] at htc
  simp only [if_true] at htc
  obtain ⟨w, rack2, _, hshape⟩ := tipChange_ok htc
  refine ⟨w, chunkBody args ctx chunk ++ out1, ?_, ?_⟩
  · rw [hout, hshape]
    simp [List.append_assoc]
  · rw [List.countP_append, chunkBody_countP_tip_zero,
      distributeLoop_once_tail hct _ _ _ _ hrec]

theorem distributeLoop_mem {args : DistributeArgs} {ctx : InvariantContext} :
    ∀ chunks : List (List String), ∀ st first out st2,
      distributeLoop args ctx chunks st first = Except.ok (out, st2) →
      ∀ c ∈ out, isTipCmd c = true ∨
        ∃ chunk ∈ chunks, c ∈ chunkBody args ctx chunk := by
  intro chunks
  induction chunks with
  | nil =>
    intro st first out st2 h c hc
    rw [(distributeLoop_nil_ok h).1] at hc
    simp at hc
  | cons chunk rest ih =>
    intro st first out st2 h c hc
    obtain ⟨tc, out1, htc, _, hrec, hout⟩ := distributeLoop_cons_ok h
    subst hout
    rcases List.mem_append.mp hc with h1 | h1
    · rcases List.mem_append.mp h1 with h2 | h2
      · exact Or.inl (tipCmds_all_tip htc c h2)
      · exact Or.inr ⟨chunk, List.mem_cons_self _ _, h2⟩
    · rcases ih _ _ _ _ hrec c h1 with h2 | ⟨ch, hch, h3⟩
      · exact Or.inl h2
      · exact Or.inr ⟨ch, List.mem_cons_of_mem _ hch, h3⟩

theorem getLastD_append (A B : List α) (d : α) :
    (A ++ B).getLastD d = B.getLastD (A.getLastD d) := by
  induction A generalizing d with
  | nil => rfl
  | cons a A ih =>
    rw [List.cons_append, List.getLastD_cons, List.getLastD_cons, ih]

theorem getLastD_stable {B : List α} (hB : B ≠ []) (d1 d2 : α) :
    B.getLastD d1 = B.getLastD d2 := by
  cases B with
  | nil => exact absurd rfl hB
  | cons b B => rw [List.getLastD_cons, List.getLastD_cons]

theorem getLastD_pred {P : α → Prop} {l : List α} {d : α}
    (hl : ∀ c ∈ l, P c) (hd : P d) : P (l.getLastD d) := by
  rcases List.mem_cons.mp (List.getLastD_mem_cons l d) with h | h
  · rw [h]; exact hd
  · exact hl _ h

theorem chunkBody_ne_nil {args : DistributeArgs} {ctx : InvariantContext}
    {chunk : List String} : chunkBody args ctx chunk ≠ [] := by
  rw [chunkBody, aspirateChunkCommands]
  simp

theorem chunkBody_getLastD_blowout {args : DistributeArgs}
    {ctx : InvariantContext} {chunk : List String} {d : Command}
    (hd : 0 < disposalVol args) :
    (chunkBody args ctx chunk).getLastD d = chunkBlowout args ctx := by
  rw [chunkBody, blowoutCommands, if_pos hd]
  rw [show mixCommands args
      ++ aspirateChunkCommands args ctx ((chunk.length : ℚ) * args.volume + disposalVol args)
      ++ dispenseForWells args ctx true chunk ++ [chunkBlowout args ctx]
    = (mixCommands args
      ++ aspirateChunkCommands args ctx ((chunk.length : ℚ) * args.volume + disposalVol args)
      ++ dispenseForWells args ctx true chunk) ++ [chunkBlowout args ctx] from rfl]
  exact List.getLastD_concat _ _ _

theorem distributeLoop_getLastD_blowout {args : DistributeArgs}
    {ctx : InvariantContext} (hd : 0 < disposalVol args) :
    ∀ chunks : List (List String), ∀ st first out st2,
      distributeLoop args ctx chunks st first = Except.ok (out, st2) →
      chunks ≠ [] →
      out ≠ [] ∧ out.getLastD (Command.delay 0) = chunkBlowout args ctx := by
  intro chunks
  induction chunks with
  | nil => intro st first out st2 _ hne; exact absurd rfl hne
  | cons chunk rest ih =>
    intro st first out st2 h _
    obtain ⟨tc, out1, htc, _, hrec, hout⟩ := distributeLoop_cons_ok h
    subst hout
    cases hrest : rest with
    | nil =>
      subst hrest
      obtain ⟨hout1, _⟩ := distributeLoop_nil_ok hrec
      subst hout1
      constructor
      · simp [chunkBody_ne_nil]
      · rw [List.append_nil, getLastD_append, chunkBody_getLastD_blowout hd]
    | cons r rs =>
      have hne2 : rest ≠ [] := by rw [hrest]; exact List.cons_ne_nil _ _
      rw [← hrest] at *
      obtain ⟨hone, htwo⟩ := ih _ _ _ _ hrec hne2
      constructor
      · simp [hone]
      · rw [getLastD_append, getLastD_stable hone, htwo]

theorem distributeLoop_blowout_target {args : DistributeArgs}
    {ctx : InvariantContext} {chunks : List (List String)} {st : RobotState}
    {first : Bool} {out : List Command} {st2 : RobotState}
    (h : distributeLoop args ctx chunks st first = Except.ok (out, st2)) :
    ∀ c ∈ out, isBlowoutCmd c = true → c = chunkBlowout args ctx := by
  intro c hc hb
  rcases distributeLoop_mem chunks st first out st2 h c hc with h1 | ⟨ch, _, h2⟩
  · rw [tip_not_blowout h1] at hb
    cases hb
  · rcases mem_chunkBody c h2 with h3 | ⟨g, _, h3⟩ | ⟨w, _, g, _, h3⟩ | h3
    · rw [basic_not_blowout h3] at hb; cases hb
    · subst h3; cases hb
    · subst h3; cases hb
    · exact h3

theorem distribute_ok_inv {args : DistributeArgs} {ctx : InvariantContext}
    {st : RobotState} {out : List Command} {st2 : RobotState} {spec : PipetteSpec}
    (hp : ctx.pipettes.lookup args.pipette = some spec)
    (h : distribute args ctx st = Except.ok (out, st2)) :
    maxWellsPerChunk args spec.maxVolume ≠ 0 ∧
    distributeLoop args ctx
      (chunksOf (maxWellsPerChunk args spec.maxVolume) args.destWells) st true
      = Except.ok (out, st2) := by
  rw [distribute] at h
  simp only [hp] at h
  split at h
  · exact absurd h (by simp)
  case _ hn =>
    split at h
    · exact absurd h (by simp)
    case _ r heq =>
      injection h with h
      subst h
      exact ⟨hn, heq⟩

theorem maxWells_cast_le {args : DistributeArgs} {maxVol : ℚ}
    (hv : 0 < args.volume) (hn : maxWellsPerChunk args maxVol ≠ 0) :
    ((maxWellsPerChunk args maxVol : ℕ) : ℚ) * args.volume
      ≤ maxVol - disposalVol args - airGapVol args := by
  have heq : maxWellsPerChunk args maxVol
      = (⌊(maxVol - disposalVol args - airGapVol args) / args.volume⌋).toNat := rfl
  have hpos : 0 < ⌊(maxVol - disposalVol args - airGapVol args) / args.volume⌋ := by
    by_contra hle
    exact hn (by rw [heq, Int.toNat_of_nonpos (by omega)])
  have hcast : ((maxWellsPerChunk args maxVol : ℕ) : ℚ)
      = ((⌊(maxVol - disposalVol args - airGapVol args) / args.volume⌋ : ℤ) : ℚ) := by
    rw [heq]
    exact_mod_cast congrArg (fun z : ℤ => (z : ℚ))
      (Int.toNat_of_nonneg (le_of_lt hpos))
  have hfl := Int.floor_le ((maxVol - disposalVol args - airGapVol args) / args.volume)
  have hle : ((maxWellsPerChunk args maxVol : ℕ) : ℚ)
      ≤ (maxVol - disposalVol args - airGapVol args) / args.volume := by
    rw [hcast]; exact hfl
  calc ((maxWellsPerChunk args maxVol : ℕ) : ℚ) * args.volume
      ≤ ((maxVol - disposalVol args - airGapVol args) / args.volume) * args.volume :=
        mul_le_mul_of_nonneg_right hle (le_of_lt hv)
    _ = maxVol - disposalVol args - airGapVol args :=
        div_mul_cancel₀ _ (ne_of_gt hv)

theorem chunk_mul_le {args : DistributeArgs} {maxVol : ℚ}
    (hv : 0 < args.volume) (hn : maxWellsPerChunk args maxVol ≠ 0) :
    ∀ c ∈ chunksOf (maxWellsPerChunk args maxVol) args.destWells,
      (c.length : ℚ) * args.volume
        ≤ maxVol - disposalVol args - airGapVol args := by
  intro c hc
  have hlen := (mem_chunksOf hn args.destWells c hc).1
  calc (c.length : ℚ) * args.volume
      ≤ ((maxWellsPerChunk args maxVol : ℕ) : ℚ) * args.volume := by
        exact mul_le_mul_of_nonneg_right (by exact_mod_cast hlen) (le_of_lt hv)
    _ ≤ maxVol - disposalVol args - airGapVol args := maxWells_cast_le hv hn

theorem maxWells_zero_of_exceeds {args : DistributeArgs} {maxVol : ℚ}
    (hv : 0 < args.volume) (hg : 0 ≤ airGapVol args)
    (hx : maxVol - disposalVol args < args.volume) :
    maxWellsPerChunk args maxVol = 0 := by
  have hq : (maxVol - disposalVol args - airGapVol args) / args.volume < 1 := by
    rw [div_lt_one hv]
    linarith
  have hfl : ⌊(maxVol - disposalVol args - airGapVol args) / args.volume⌋ < 1 := by
    refine Int.floor_lt.mpr ?_
    exact_mod_cast hq
  exact Int.toNat_of_nonpos (by omega)

theorem nextOk_of_not {p : Command → Bool} {r : Command → Command → Bool}
    {c : Command} (h : p c = false) :
    ∀ l : List Command, nextOk p r c l = true := by
  intro l
  cases l <;> simp [nextOk, h]

theorem adjRel_cons {p : Command → Bool} {r : Command → Command → Bool}
    {c : Command} {l : List Command} (h1 : nextOk p r c l = true)
    (h2 : adjRel p r l = true) : adjRel p r (c :: l) = true := by
  simp [adjRel, h1, h2]

theorem adjRel_append_lfree {p : Command → Bool} {r : Command → Command → Bool} :
    ∀ A B : List Command, (∀ a ∈ A, p a = false) → adjRel p r B = true →
      adjRel p r (A ++ B) = true := by
  intro A
  induction A with
  | nil => intro B _ hB; simpa using hB
  | cons a A ih =>
    intro B hA hB
    rw [List.cons_append]
    exact adjRel_cons (nextOk_of_not (hA a (List.mem_cons_self _ _)) _)
      (ih B (fun x hx => hA x (List.mem_cons_of_mem _ hx)) hB)

theorem adjRel_of_free {p : Command → Bool} {r : Command → Command → Bool}
    {A : List Command} (hA : ∀ a ∈ A, p a = false) : adjRel p r A = true := by
  have := @adjRel_append_lfree p r A [] hA rfl
  simpa using this

theorem chunkBody_drop_free {args : DistributeArgs} {ctx : InvariantContext}
    {chunk : List String} :
    ∀ c ∈ chunkBody args ctx chunk, isDropTipCmd c = false := by
  intro c hc
  have := chunkBody_no_tip c hc
  simp only [isTipCmd, Bool.or_eq_false_iff] at this
  exact this.2

theorem chunkBody_pickup_free {args : DistributeArgs} {ctx : InvariantContext}
    {chunk : List String} :
    ∀ c ∈ chunkBody args ctx chunk, isPickUpTipCmd c = false := by
  intro c hc
  have := chunkBody_no_tip c hc
  simp only [isTipCmd, Bool.or_eq_false_iff] at this
  exact this.1

theorem distributeLoop_adj_drop {args : DistributeArgs} {ctx : InvariantContext} :
    ∀ chunks : List (List String), ∀ st first out st2,
      distributeLoop args ctx chunks st first = Except.ok (out, st2) →
      adjRel isDropTipCmd (fun _ d => isPickUpTipCmd d) out = true := by
  intro chunks
  induction chunks with
  | nil =>
    intro st first out st2 h
    rw [(distributeLoop_nil_ok h).1]
    rfl
  | cons chunk rest ih =>
    intro st first out st2 h
    obtain ⟨tc, out1, htc, _, hrec, hout⟩ := distributeLoop_cons_ok h
    subst hout
    have hbo : adjRel isDropTipCmd (fun _ d => isPickUpTipCmd d)
        (chunkBody args ctx chunk ++ out1) = true :=
      adjRel_append_lfree _ _ chunkBody_drop_free (ih _ _ _ _ hrec)
    rcases tipCmds_shape htc with h0 | ⟨w, hsh⟩
    · subst h0
      simpa using hbo
    · subst hsh
      rw [List.append_assoc]
      cases hh : st.tipHeld
      · rw [if_neg (by simp [hh])]
        rw [List.nil_append, List.cons_append]
        exact adjRel_cons (nextOk_of_not rfl _) hbo
      · rw [if_pos (by simp [hh])]
        rw [List.cons_append, List.cons_append]
        refine adjRel_cons ?_ (adjRel_cons (nextOk_of_not rfl _) hbo)
        rfl

theorem chunkBody_headD_aspirate {args : DistributeArgs} {ctx : InvariantContext}
    {chunk : List String} {d : Command} :
    isAspirateCmd ((chunkBody args ctx chunk).headD d) = true := by
  rw [chunkBody]
  cases hmix : args.mixBeforeAspirate with
  | none =>
    simp [mixCommands, hmix, aspirateChunkCommands, isAspirateCmd]
  | some m =>
    simp only [mixCommands, hmix]
    cases ht : m.times with
    | zero =>
      simp [ht, aspirateChunkCommands, isAspirateCmd]
    | succ t =>
      simp [ht, List.range_succ_eq_map, aspirateChunkCommands, isAspirateCmd]

theorem distributeLoop_adj_pickup {args : DistributeArgs}
    {ctx : InvariantContext} :
    ∀ chunks : List (List String), ∀ st first out st2,
      distributeLoop args ctx chunks st first = Except.ok (out, st2) →
      adjRel isPickUpTipCmd (fun _ d => isAspirateCmd d) out = true := by
  intro chunks
  induction chunks with
  | nil =>
    intro st first out st2 h
    rw [(distributeLoop_nil_ok h).1]
    rfl
  | cons chunk rest ih =>
    intro st first out st2 h
    obtain ⟨tc, out1, htc, _, hrec, hout⟩ := distributeLoop_cons_ok h
    subst hout
    have hbo : adjRel isPickUpTipCmd (fun _ d => isAspirateCmd d)
        (chunkBody args ctx chunk ++ out1) = true :=
      adjRel_append_lfree _ _ chunkBody_pickup_free (ih _ _ _ _ hrec)
    obtain ⟨ca, tl, hbody⟩ : ∃ ca tl, chunkBody args ctx chunk = ca :: tl := by
      cases h2 : chunkBody args ctx chunk with
      | nil => exact absurd h2 chunkBody_ne_nil
      | cons a b => exact ⟨a, b, rfl⟩
    have hasp : isAspirateCmd ca = true := by
      have := @chunkBody_headD_aspirate args ctx chunk (Command.delay 0)
      rw [hbody] at this
      exact this
    rcases tipCmds_shape htc with h0 | ⟨w, hsh⟩
    · subst h0
      simpa using hbo
    · subst hsh
      rw [List.append_assoc]
      have hstep : adjRel isPickUpTipCmd (fun _ d => isAspirateCmd d)
          (Command.pickUpTip TIPRACK_ID w :: (chunkBody args ctx chunk ++ out1))
          = true := by
        rw [hbody, List.cons_append]
        refine adjRel_cons ?_ ?_
        · simp [nextOk, hasp]
        · rw [← List.cons_append, ← hbody]
          exact hbo
      cases hh : st.tipHeld
      · rw [if_neg (by simp [hh])]
        rw [List.nil_append, List.cons_append]
        exact hstep
      · rw [if_pos (by simp [hh])]
        rw [List.cons_append, List.cons_append]
        exact adjRel_cons (nextOk_of_not rfl _) hstep

theorem mem_dispenseOneWell_false {args : DistributeArgs} {ctx : InvariantContext}
    {w : String} :
    ∀ c ∈ dispenseOneWell args ctx false w, basicCmd c = true := by
  intro c hc
  rw [dispenseOneWell] at hc
  rcases List.mem_append.mp hc with h | h
  · rcases List.mem_append.mp h with h | h
    · rcases List.mem_append.mp h with h | h
      · cases hg : args.aspirateAirGapVolume <;> rw [hg] at h <;> simp at h
      · rw [List.mem_singleton.mp h]; rfl
    · exact mem_delayWithOffset c h
  · rcases ht : args.touchTipAfterDispense with _ | _ <;> rw [ht] at h
    · simp at h
    · rw [if_pos rfl] at h
      rw [List.mem_singleton.mp h]
      rfl

theorem mem_dispenseForWells_false {args : DistributeArgs}
    {ctx : InvariantContext} :
    ∀ ws : List String, ∀ c ∈ dispenseForWells args ctx false ws,
      basicCmd c = true := by
  intro ws
  induction ws with
  | nil => intro c hc; simp [dispenseForWells] at hc
  | cons w ws ih =>
    intro c hc
    rw [dispenseForWells] at hc
    rcases List.mem_append.mp hc with h | h
    · exact mem_dispenseOneWell_false c h
    · exact ih c h

theorem mix_dag_free {args : DistributeArgs} :
    ∀ c ∈ mixCommands args, isDispenseAirGapCmd c = false := fun c hc =>
  basic_not_dag (mem_mixCommands c hc)

theorem asp_dag_free {args : DistributeArgs} {ctx : InvariantContext} {v : ℚ} :
    ∀ c ∈ aspirateChunkCommands args ctx v, isDispenseAirGapCmd c = false := by
  intro c hc
  rcases mem_aspirateChunkCommands c hc with h | ⟨g, _, h⟩
  · exact basic_not_dag h
  · subst h; rfl

theorem blowout_dag_free {args : DistributeArgs} {ctx : InvariantContext} :
    ∀ c ∈ blowoutCommands args ctx, isDispenseAirGapCmd c = false := by
  intro c hc
  rw [mem_blowoutCommands c hc, chunkBlowout]
  rfl

theorem dfw_adj_dag {args : DistributeArgs} {ctx : InvariantContext} {g : ℚ}
    (hg : args.aspirateAirGapVolume = some g) :
    ∀ (first : Bool) (ws : List String) (Z : List Command),
      adjRel isDispenseAirGapCmd (dagFollows args) Z = true →
      adjRel isDispenseAirGapCmd (dagFollows args)
        (dispenseForWells args ctx first ws ++ Z) = true := by
  intro first ws
  induction ws generalizing first with
  | nil =>
    intro Z hZ
    simpa [dispenseForWells] using hZ
  | cons w ws ih =>
    intro Z hZ
    rw [dispenseForWells, List.append_assoc]
    have hrest := ih false Z hZ
    cases first with
    | false =>
      exact adjRel_append_lfree _ _
        (fun c hc => basic_not_dag (mem_dispenseOneWell_false c hc)) hrest
    | true =>
      rw [dispenseOneWell, hg]
      simp only [if_true, List.append_assoc, List.cons_append, List.nil_append]
      refine adjRel_cons ?_ ?_
      · cases hdp : args.dispenseDelay with
        | some dp =>
          simp [optDelaySeconds, hdp, nextOk, dagFollows]
        | none =>
          simp [optDelaySeconds, hdp, nextOk, dagFollows]
      · refine adjRel_append_lfree _ _ (fun c hc => basic_not_dag
          (mem_optDelaySeconds c hc)) ?_
        refine adjRel_cons (nextOk_of_not rfl _) ?_
        refine adjRel_append_lfree _ _ (fun c hc => basic_not_dag
          (mem_delayWithOffset c hc)) ?_
        refine adjRel_append_lfree _ _ ?_ hrest
        intro c hc
        rcases ht : args.touchTipAfterDispense with _ | _ <;> rw [ht] at hc
        · simp at hc
        · rw [if_pos rfl] at hc
          rw [List.mem_singleton.mp hc]
          rfl

theorem chunkBody_adj_dag {args : DistributeArgs} {ctx : InvariantContext}
    {g : ℚ} (hg : args.aspirateAirGapVolume = some g) {chunk : List String}
    {Y : List Command}
    (hY : adjRel isDispenseAirGapCmd (dagFollows args) Y = true) :
    adjRel isDispenseAirGapCmd (dagFollows args)
      (chunkBody args ctx chunk ++ Y) = true := by
  rw [chunkBody]
  simp only [List.append_assoc]
  refine adjRel_append_lfree _ _ mix_dag_free ?_
  refine adjRel_append_lfree _ _ asp_dag_free ?_
  exact dfw_adj_dag hg true chunk _
    (adjRel_append_lfree _ _ blowout_dag_free hY)

theorem distributeLoop_adj_dag {args : DistributeArgs} {ctx : InvariantContext}
    {g : ℚ} (hg : args.aspirateAirGapVolume = some g) :
    ∀ chunks : List (List String), ∀ st first out st2,
      distributeLoop args ctx chunks st first = Except.ok (out, st2) →
      adjRel isDispenseAirGapCmd (dagFollows args) out = true := by
  intro chunks
  induction chunks with
  | nil =>
    intro st first out st2 h
    rw [(distributeLoop_nil_ok h).1]
    rfl
  | cons chunk rest ih =>
    intro st first out st2 h
    obtain ⟨tc, out1, htc, _, hrec, hout⟩ := distributeLoop_cons_ok h
    subst hout
    rw [List.append_assoc]
    refine adjRel_append_lfree _ _
      (fun c hc => tip_not_dag (tipCmds_all_tip htc c hc)) ?_
    exact chunkBody_adj_dag hg (ih _ _ _ _ hrec)

theorem filterMap_dagWell_nil {l : List Command}
    (h : ∀ c ∈ l, dagWell c = none) : l.filterMap dagWell = [] :=
  List.filterMap_eq_nil_iff.mpr h

theorem dow_true_filterMap {args : DistributeArgs} {ctx : InvariantContext}
    {g : ℚ} (hg : args.aspirateAirGapVolume = some g) {w : String} :
    (dispenseOneWell args ctx true w).filterMap dagWell = [w] := by
  rw [dispenseOneWell, hg]
  have h1 : (optDelaySeconds args.dispenseDelay).filterMap dagWell = [] :=
    filterMap_dagWell_nil (fun c hc => basic_dagWell (mem_optDelaySeconds c hc))
  have h2 : (delayWithOffset args.destLabware w args.dispenseDelay).filterMap
      dagWell = [] :=
    filterMap_dagWell_nil (fun c hc => basic_dagWell (mem_delayWithOffset c hc))
  have h3 : ((if args.touchTipAfterDispense = true then
      [Command.touchTip args.destLabware w
        args.touchTipAfterDispenseOffsetMmFromBottom] else [])).filterMap
      dagWell = [] := by
    rcases ht : args.touchTipAfterDispense with _ | _
    · simp
    · simp [dagWell]
  simp [List.filterMap_append, List.filterMap_cons, dagWell, h1, h2, h3]

theorem dfw_false_filterMap {args : DistributeArgs} {ctx : InvariantContext} :
    ∀ ws : List String,
      (dispenseForWells args ctx false ws).filterMap dagWell = [] := by
  intro ws
  exact filterMap_dagWell_nil
    (fun c hc => basic_dagWell (mem_dispenseForWells_false ws c hc))

theorem chunkBody_filterMap_dag {args : DistributeArgs} {ctx : InvariantContext}
    {g : ℚ} (hg : args.aspirateAirGapVolume = some g) {chunk : List String} :
    (chunkBody args ctx chunk).filterMap dagWell = chunk.head?.toList := by
  rw [chunkBody]
  simp only [List.filterMap_append]
  have hmix : (mixCommands args).filterMap dagWell = [] :=
    filterMap_dagWell_nil (fun c hc => basic_dagWell (mem_mixCommands c hc))
  have hasp : (aspirateChunkCommands args ctx
      ((chunk.length : ℚ) * args.volume + disposalVol args)).filterMap dagWell
      = [] :=
    filterMap_dagWell_nil (fun c hc => by
      rcases mem_aspirateChunkCommands c hc with h | ⟨g2, _, h⟩
      · exact basic_dagWell h
      · subst h; rfl)
  have hblow : (blowoutCommands args ctx).filterMap dagWell = [] :=
    filterMap_dagWell_nil (fun c hc => by
      rw [mem_blowoutCommands c hc, chunkBlowout]; rfl)
  rw [hmix, hasp, hblow]
  cases chunk with
  | nil => simp [dispenseForWells]
  | cons w ws =>
    rw [dispenseForWells]
    rw [List.filterMap_append, dow_true_filterMap hg, dfw_false_filterMap]
    simp

theorem distributeLoop_filterMap_dag {args : DistributeArgs}
    {ctx : InvariantContext} {g : ℚ} (hg : args.aspirateAirGapVolume = some g) :
    ∀ chunks : List (List String), ∀ st first out st2,
      distributeLoop args ctx chunks st first = Except.ok (out, st2) →
      out.filterMap dagWell = chunks.filterMap List.head? := by
  intro chunks
  induction chunks with
  | nil =>
    intro st first out st2 h
    rw [(distributeLoop_nil_ok h).1]
    rfl
  | cons chunk rest ih =>
    intro st first out st2 h
    obtain ⟨tc, out1, htc, _, hrec, hout⟩ := distributeLoop_cons_ok h
    subst hout
    rw [List.filterMap_append, List.filterMap_append]
    rw [filterMap_dagWell_nil (fun c hc => tip_dagWell (tipCmds_all_tip htc c hc))]
    rw [chunkBody_filterMap_dag hg, ih _ _ _ _ hrec]
    cases hh : chunk.head? <;> simp [List.filterMap_cons, hh]

/-- Claim C1: for every successful distribute operation (with a positive
per-well volume and a nonnegative air-gap volume), every chunk
of destination wells satisfies
chunk size × per-well volume + disposal volume ≤ pipette max volume, and no
chunk is larger than the first (only the final chunk may be smaller). -/
theorem distribute_chunk_size_invariant
    (args : DistributeArgs) (ctx : InvariantContext) (st : RobotState)
    (out : List Command) (st2 : RobotState) (spec : PipetteSpec)
    (hp : ctx.pipettes.lookup args.pipette = some spec)
    (hv : 0 < args.volume)
    (hgap : 0 ≤ airGapVol args)
    (h : distribute args ctx st = Except.ok (out, st2)) :
    ∀ c ∈ chunksOf (maxWellsPerChunk args spec.maxVolume) args.destWells,
      (c.length : ℚ) * args.volume + disposalVol args ≤ spec.maxVolume ∧
      c.length ≤ ((chunksOf (maxWellsPerChunk args spec.maxVolume)
        args.destWells).headD []).length := by
  obtain ⟨hn, _⟩ := distribute_ok_inv hp h
  intro c hc
  refine ⟨?_, chunksOf_headD_length hn args.destWells c hc⟩
  have := chunk_mul_le hv hn c hc
  linarith

/-- Claim C9: when an air-gap volume is configured, it is reserved against
pipette capacity during chunking: every chunk of a successful distribute
satisfies chunk size × per-well volume + disposal volume + air-gap volume
≤ pipette max volume. -/
theorem distribute_air_gap_chunk_capacity
    (args : DistributeArgs) (ctx : InvariantContext) (st : RobotState)
    (out : List Command) (st2 : RobotState) (spec : PipetteSpec) (gap : ℚ)
    (hp : ctx.pipettes.lookup args.pipette = some spec)
    (hgap : args.aspirateAirGapVolume = some gap)
    (hv : 0 < args.volume)
    (h : distribute args ctx st = Except.ok (out, st2)) :
    ∀ c ∈ chunksOf (maxWellsPerChunk args spec.maxVolume) args.destWells,
      (c.length : ℚ) * args.volume + disposalVol args + gap ≤ spec.maxVolume := by
  obtain ⟨hn, _⟩ := distribute_ok_inv hp h
  intro c hc
  have hmul := chunk_mul_le hv hn c hc
  have hg2 : airGapVol args = gap := by rw [airGapVol, hgap]; rfl
  rw [hg2] at hmul
  linarith

/-- Claim C3 (amended): distribute partitions the ordered destination-well
list greedily into chunks bounded by
pipette max volume − disposal volume − air-gap volume: for every successful
operation, every chunk except possibly the last has exactly
maxWellsPerChunk wells, and every chunk has at most that many wells.  (The
original claim, which ignored the air-gap volume in the bound, is refuted
by the counterexample theorem.) -/
theorem distribute_greedy_chunking
    (args : DistributeArgs) (ctx : InvariantContext) (st : RobotState)
    (out : List Command) (st2 : RobotState) (spec : PipetteSpec)
    (hp : ctx.pipettes.lookup args.pipette = some spec)
    (h : distribute args ctx st = Except.ok (out, st2)) :
    (∀ i : Nat,
      i + 1 < (chunksOf (maxWellsPerChunk args spec.maxVolume) args.destWells).length →
      ((chunksOf (maxWellsPerChunk args spec.maxVolume) args.destWells).getD i []).length
        = maxWellsPerChunk args spec.maxVolume) ∧
    ∀ c ∈ chunksOf (maxWellsPerChunk args spec.maxVolume) args.destWells,
      c.length ≤ maxWellsPerChunk args spec.maxVolume := by
  obtain ⟨hn, _⟩ := distribute_ok_inv hp h
  exact ⟨fun i hi => chunksOf_getD_length hn args.destWells i hi,
    fun c hc => (mem_chunksOf hn args.destWells c hc).1⟩

/-- Claim C4: whenever the per-well volume exceeds
pipette max volume − disposal volume (with a positive per-well volume and a
nonnegative air-gap volume), distribute fails with exactly one error,
PIPETTE_VOLUME_EXCEEDED, detected during chunk-size computation; the
failure carries no instructions. -/
theorem distribute_volume_exceeded
    (args : DistributeArgs) (ctx : InvariantContext) (st : RobotState)
    (spec : PipetteSpec)
    (hp : ctx.pipettes.lookup args.pipette = some spec)
    (hv : 0 < args.volume) (hgap : 0 ≤ airGapVol args)
    (hx : spec.maxVolume - disposalVol args < args.volume) :
    distribute args ctx st = Except.error [ErrorKind.PIPETTE_VOLUME_EXCEEDED] := by
  rw [distribute]
  simp only [hp]
  rw [if_pos (maxWells_zero_of_exceeds hv hgap hx)]

theorem distributeLoop_rack_short {args : DistributeArgs}
    {ctx : InvariantContext} (hct : args.changeTip = ChangeTip.always) :
    ∀ chunks : List (List String), ∀ st : RobotState, ∀ first : Bool,
      st.rack.length < chunks.length →
      distributeLoop args ctx chunks st first
        = Except.error ErrorKind.INSUFFICIENT_TIPS := by
  intro chunks
  induction chunks with
  | nil => intro st first h; simp at h
  | cons chunk rest ih =>
    intro st first h
    have hneed : needsTipChange args.changeTip first = true := by rw [hct]; rfl
    cases hr : st.rack with
    | nil =>
      rw [distributeLoop, if_pos hneed, tipChangeCommands, hr]
    | cons w rack2 =>
      simp only [distributeLoop, if_pos hneed, tipChangeCommands, hr]
      rw [if_pos applyAll_tipPair]
      have hrack2 : (applyAll (chunkBody args ctx chunk)
          (applyAll ((if st.tipHeld then [Command.dropTip FIXED_TRASH_ID "A1"]
            else []) ++ [Command.pickUpTip TIPRACK_ID w]) st)).rack = rack2 := by
        rw [(applyAll_not_tip _ chunkBody_no_tip _).2, applyAll_tipPair_rack,
          hr, List.drop_one, List.tail_cons]
      have hlen2 : (applyAll (chunkBody args ctx chunk)
          (applyAll ((if st.tipHeld then [Command.dropTip FIXED_TRASH_ID "A1"]
            else []) ++ [Command.pickUpTip TIPRACK_ID w]) st)).rack.length
          < rest.length := by
        rw [hrack2]
        rw [hr] at h
        simpa using Nat.lt_of_succ_lt_succ (by simpa using h)
      rw [ih _ false hlen2]

/-- Claim C7: whenever a required tip pick-up finds no unconsumed tip-rack
well — either the change-tip policy is `always` and the rack holds fewer
tips than there are chunks (so a pick-up fails mid-run), or the policy
requires a pick-up and the rack is empty from the start — distribute fails
with exactly one error, INSUFFICIENT_TIPS, and the failure carries no
instructions: everything compiled before the failing pick-up is
discarded. -/
theorem distribute_insufficient_tips
    (args : DistributeArgs) (ctx : InvariantContext) (st : RobotState)
    (spec : PipetteSpec)
    (hp : ctx.pipettes.lookup args.pipette = some spec)
    (hn : maxWellsPerChunk args spec.maxVolume ≠ 0)
    (hcase : (args.changeTip = ChangeTip.always ∧
        st.rack.length < (chunksOf (maxWellsPerChunk args spec.maxVolume)
          args.destWells).length) ∨
      (args.changeTip ≠ ChangeTip.never ∧ st.rack = [] ∧
        args.destWells ≠ [])) :
    distribute args ctx st = Except.error [ErrorKind.INSUFFICIENT_TIPS] := by
  rw [distribute]
  simp only [hp]
  rw [if_neg hn]
  rcases hcase with ⟨hct, hlen⟩ | ⟨hct, hrack, hw⟩
  · rw [distributeLoop_rack_short hct _ _ _ hlen]
  · have hneed : needsTipChange args.changeTip true = true := by
      cases hc2 : args.changeTip
      · exact absurd hc2 hct
      · rfl
      · rfl
    cases hwl : args.destWells with
    | nil => exact absurd hwl hw
    | cons x xs =>
      rw [chunksOf_cons, distributeLoop, if_pos hneed,
        tipChangeCommands, hrack]

/-- Claim C6: in every successful distribute, the number of blow-out
instructions is the number of chunks when the disposal volume is positive
and zero otherwise (none appears anywhere when it is zero or absent);
every blow-out targets the disposal labware and well; and with a positive
disposal volume the instruction stream of a nonempty operation ends with
that blow-out. -/
theorem distribute_blowout_invariant
    (args : DistributeArgs) (ctx : InvariantContext) (st : RobotState)
    (out : List Command) (st2 : RobotState) (spec : PipetteSpec)
    (hp : ctx.pipettes.lookup args.pipette = some spec)
    (h : distribute args ctx st = Except.ok (out, st2)) :
    out.countP isBlowoutCmd
      = (if 0 < disposalVol args then
          (chunksOf (maxWellsPerChunk args spec.maxVolume) args.destWells).length
        else 0) ∧
    (∀ c ∈ out, isBlowoutCmd c = true → c = chunkBlowout args ctx) ∧
    (0 < disposalVol args → args.destWells ≠ [] →
      out ≠ [] ∧ out.getLastD (Command.delay 0) = chunkBlowout args ctx) := by
  obtain ⟨hn, hloop⟩ := distribute_ok_inv hp h
  refine ⟨?_, distributeLoop_blowout_target hloop, ?_⟩
  · rw [distributeLoop_countP_blowout _ _ _ _ _ hloop]
    by_cases hd : 0 < disposalVol args <;> simp [hd]
  · intro hd hw
    refine distributeLoop_getLastD_blowout hd _ _ _ _ _ hloop ?_
    cases hwl : args.destWells with
    | nil => exact absurd hwl hw
    | cons x xs => exact chunksOf_ne_nil _ x xs

/-- Claim C10: every air-gap instruction of a successful distribute is
taken at the source labware 1 mm above the well top (offset from bottom =
source well depth + 1), and every dispense-air-gap is released at the
destination labware 1 mm above the well top — not at the regular
aspirate/dispense offsets. -/
theorem distribute_air_gap_offset
    (args : DistributeArgs) (ctx : InvariantContext) (st : RobotState)
    (out : List Command) (st2 : RobotState)
    (h : distribute args ctx st = Except.ok (out, st2)) :
    ∀ c ∈ out,
      (∀ lw w v f o, c = Command.airGap lw w v f o →
        lw = args.sourceLabware ∧ w = args.sourceWell ∧
        o = wellDepth ctx args.sourceLabware + 1) ∧
      (∀ lw w v f o, c = Command.dispenseAirGap lw w v f o →
        lw = args.destLabware ∧ o = wellDepth ctx args.destLabware + 1) := by
  cases hlk : ctx.pipettes.lookup args.pipette with
  | none =>
    rw [distribute] at h
    simp only [hlk] at h
    exact absurd h (by simp)
  | some spec =>
    obtain ⟨hn, hloop⟩ := distribute_ok_inv hlk h
    intro c hc
    have hmem := distributeLoop_mem _ _ _ _ _ hloop c hc
    constructor
    · intro lw w v f o hceq
      subst hceq
      rcases hmem with htip | ⟨chunk, _, hbody⟩
      · simp [isTipCmd, isPickUpTipCmd, isDropTipCmd] at htip
      · rcases mem_chunkBody _ hbody with hb | ⟨g2, _, heq⟩ | ⟨w2, _, g2, _, heq⟩ | heq
        · simp [basicCmd] at hb
        · injection heq with h1 h2 h3 h4 h5
          exact ⟨h1, h2, h5⟩
        · exact absurd heq (by simp)
        · exact absurd heq (by simp [chunkBlowout])
    · intro lw w v f o hceq
      subst hceq
      rcases hmem with htip | ⟨chunk, _, hbody⟩
      · simp [isTipCmd, isPickUpTipCmd, isDropTipCmd] at htip
      · rcases mem_chunkBody _ hbody with hb | ⟨g2, _, heq⟩ | ⟨w2, _, g2, _, heq⟩ | heq
        · simp [basicCmd] at hb
        · exact absurd heq (by simp)
        · injection heq with h1 h2 h3 h4 h5
          exact ⟨h1, h5⟩
        · exact absurd heq (by simp [chunkBlowout])

/-- Claim C5 (amended): in every successful distribute, tip handling
follows the change-tip policy: for `never` there are no tip instructions;
for `once` the stream starts with one pick-up (preceded by a drop exactly
when a tip is already held) and contains no other tip instruction; for
`always` there is one pick-up per chunk and one drop per chunk except that
the drop is omitted before the first chunk when no tip is held; moreover
every drop is immediately followed by a pick-up and every pick-up is
immediately followed by an aspirate.  (The original claim, which required a
full drop+pickup pair even when no tip is held, is refuted by the
counterexample theorem.) -/
theorem distribute_tip_policy
    (args : DistributeArgs) (ctx : InvariantContext) (st : RobotState)
    (out : List Command) (st2 : RobotState) (spec : PipetteSpec)
    (hp : ctx.pipettes.lookup args.pipette = some spec)
    (h : distribute args ctx st = Except.ok (out, st2)) :
    (args.changeTip = ChangeTip.never → out.countP isTipCmd = 0) ∧
    (args.changeTip = ChangeTip.once → args.destWells ≠ [] →
      ∃ w tail, out = (if st.tipHeld then [Command.dropTip FIXED_TRASH_ID "A1"]
        else []) ++ Command.pickUpTip TIPRACK_ID w :: tail ∧
        tail.countP isTipCmd = 0) ∧
    (args.changeTip = ChangeTip.always →
      out.countP isPickUpTipCmd
        = (chunksOf (maxWellsPerChunk args spec.maxVolume) args.destWells).length ∧
      out.countP isDropTipCmd
        = (chunksOf (maxWellsPerChunk args spec.maxVolume) args.destWells).length
          - (if st.tipHeld then 0 else 1)) ∧
    adjRel isDropTipCmd (fun _ d => isPickUpTipCmd d) out = true ∧
    adjRel isPickUpTipCmd (fun _ d => isAspirateCmd d) out = true := by
  obtain ⟨hn, hloop⟩ := distribute_ok_inv hp h
  refine ⟨fun hct => distributeLoop_never hct _ _ _ _ _ hloop,
    ?_,
    fun hct => distributeLoop_always hct _ _ _ _ _ hloop,
    distributeLoop_adj_drop _ _ _ _ _ hloop,
    distributeLoop_adj_pickup _ _ _ _ _ hloop⟩
  intro hct hw
  cases hwl : args.destWells with
  | nil => exact absurd hwl hw
  | cons x xs =>
    rw [hwl, chunksOf_cons] at hloop
    exact distributeLoop_once_head hct hloop

/-- Claim C8 (amended): when an air-gap volume is configured, each chunk of
a successful distribute contributes exactly one dispense-air-gap, into the
chunk's first well, in chunk order (the sequence of dispense-air-gap wells
equals the sequence of chunk first wells); and each dispense-air-gap is
immediately followed by a delay of dispenseDelay.seconds when a dispense
delay is configured, else immediately by the main dispense into the same
well.  (The original claim — a dispense-air-gap into every well of a chunk,
with the delay taken from aspirateDelay — is refuted by the counterexample
theorem.) -/
theorem distribute_air_gap_dispense
    (args : DistributeArgs) (ctx : InvariantContext) (st : RobotState)
    (out : List Command) (st2 : RobotState) (spec : PipetteSpec) (gap : ℚ)
    (hp : ctx.pipettes.lookup args.pipette = some spec)
    (hgap : args.aspirateAirGapVolume = some gap)
    (h : distribute args ctx st = Except.ok (out, st2)) :
    out.filterMap dagWell
      = (chunksOf (maxWellsPerChunk args spec.maxVolume)
          args.destWells).filterMap List.head? ∧
    adjRel isDispenseAirGapCmd (dagFollows args) out = true := by
  obtain ⟨hn, hloop⟩ := distribute_ok_inv hp h
  exact ⟨distributeLoop_filterMap_dag hgap _ _ _ _ _ hloop,
    distributeLoop_adj_dag hgap _ _ _ _ _ hloop⟩

/-- Claim C2: a single-channel distribute of 60 µL from A1 to A2 and A3
with change-tip never and disposal volume 60, starting with a tip held,
succeeds and emits exactly aspirate(A1, 180), dispense(A2, 60),
dispense(A3, 60), blowout(trash) — in that order and nothing else. -/
theorem distribute_minimal_example :
    (distribute argsC2 ctxFix stFix).map Prod.fst = Except.ok
      [Command.aspirate "sourcePlateId" "A1" 180 2.1 3.1,
       Command.dispense "destPlateId" "A2" 60 2.2 3.2,
       Command.dispense "destPlateId" "A3" 60 2.2 3.2,
       Command.blowout "trashId" "A1" 2.3 80.3] := by
  norm_num [distribute, distributeLoop, argsC2, mixinArgs, ctxFix, stFix,
    maxWellsPerChunk, disposalVol, airGapVol, chunksOf, chunksOfGo,
    needsTipChange, tipChangeCommands, applyAll, applyCommand, addLiquid,
    chunkBody, mixCommands, aspirateChunkCommands, dispenseOneWell,
    dispenseForWells, blowoutCommands, chunkBlowout, optDelaySeconds,
    delayWithOffset, wellDepth, FIXED_TRASH_ID, TIPRACK_ID, List.lookup,
    Except.map]
  simp
  norm_num

theorem evalC2 : distribute argsC2 ctxFix stFix = Except.ok (outC2, stC2) := by
  norm_num [distribute, distributeLoop, argsC2, mixinArgs, ctxFix, stFix,
    outC2, stC2, maxWellsPerChunk, disposalVol, airGapVol, chunksOf,
    chunksOfGo, needsTipChange, tipChangeCommands, applyAll, applyCommand,
    addLiquid, chunkBody, mixCommands, aspirateChunkCommands, dispenseOneWell,
    dispenseForWells, blowoutCommands, chunkBlowout, optDelaySeconds,
    delayWithOffset, wellDepth, FIXED_TRASH_ID, TIPRACK_ID, List.lookup]
  all_goals simp
  all_goals norm_num

theorem evalC3 : distribute argsC3 ctxFix stFix = Except.ok (outC3, stC3) := by
  norm_num [distribute, distributeLoop, argsC3, mixinArgs, ctxFix, stFix,
    outC3, stC3, maxWellsPerChunk, disposalVol, airGapVol, chunksOf,
    chunksOfGo, needsTipChange, tipChangeCommands, applyAll, applyCommand,
    addLiquid, chunkBody, mixCommands, aspirateChunkCommands, dispenseOneWell,
    dispenseForWells, blowoutCommands, chunkBlowout, optDelaySeconds,
    delayWithOffset, wellDepth, FIXED_TRASH_ID, TIPRACK_ID, List.lookup]
  all_goals simp
  all_goals norm_num

theorem evalC5 : distribute argsC5 ctxFix stFix = Except.ok (outC5, stC5) := by
  norm_num [distribute, distributeLoop, argsC5, mixinArgs, ctxFix, stFix,
    outC5, stC5, maxWellsPerChunk, disposalVol, airGapVol, chunksOf,
    chunksOfGo, needsTipChange, tipChangeCommands, applyAll, applyCommand,
    addLiquid, chunkBody, mixCommands, aspirateChunkCommands, dispenseOneWell,
    dispenseForWells, blowoutCommands, chunkBlowout, optDelaySeconds,
    delayWithOffset, wellDepth, FIXED_TRASH_ID, TIPRACK_ID, List.lookup]
  all_goals simp
  all_goals norm_num

theorem evalC8 : distribute argsC8 ctxFix stFix = Except.ok (outC8, stC8) := by
  norm_num [distribute, distributeLoop, argsC8, mixinArgs, ctxFix, stFix,
    outC8, stC8, maxWellsPerChunk, disposalVol, airGapVol, chunksOf,
    chunksOfGo, needsTipChange, tipChangeCommands, applyAll, applyCommand,
    addLiquid, chunkBody, mixCommands, aspirateChunkCommands, dispenseOneWell,
    dispenseForWells, blowoutCommands, chunkBlowout, optDelaySeconds,
    delayWithOffset, wellDepth, FIXED_TRASH_ID, TIPRACK_ID, List.lookup]
  all_goals simp
  all_goals norm_num

theorem volC2_pos : (0 : ℚ) < argsC2.volume := by
  norm_num [argsC2, mixinArgs]

theorem gapC2_nonneg : (0 : ℚ) ≤ airGapVol argsC2 := by
  norm_num [airGapVol, argsC2, mixinArgs]

theorem volC3_pos : (0 : ℚ) < argsC3.volume := by
  norm_num [argsC3, mixinArgs]

theorem mwC3 : maxWellsPerChunk argsC3 p300Spec.maxVolume = 2 := by
  norm_num [maxWellsPerChunk, argsC3, mixinArgs, p300Spec, disposalVol,
    airGapVol]
  simp

theorem mwC7_ne : maxWellsPerChunk argsC7 p300Spec.maxVolume ≠ 0 := by
  have : maxWellsPerChunk argsC7 p300Spec.maxVolume = 1 := by
    norm_num [maxWellsPerChunk, argsC7, mixinArgs, p300Spec, disposalVol,
      airGapVol]
  rw [this]
  exact one_ne_zero

theorem mwC5 : maxWellsPerChunk argsC5 p300Spec.maxVolume = 1 := by
  norm_num [maxWellsPerChunk, argsC5, mixinArgs, p300Spec, disposalVol,
    airGapVol]

theorem mwC5_ne : maxWellsPerChunk argsC5 p300Spec.maxVolume ≠ 0 := by
  rw [mwC5]
  exact one_ne_zero

theorem hlenC5 : stOneTip.rack.length
    < (chunksOf (maxWellsPerChunk argsC5 p300Spec.maxVolume)
        argsC5.destWells).length := by
  rw [mwC5]
  decide

theorem volC4a_pos : (0 : ℚ) < argsC4a.volume := by
  norm_num [argsC4a, mixinArgs]

theorem gapC4a_nonneg : (0 : ℚ) ≤ airGapVol argsC4a := by
  norm_num [airGapVol, argsC4a, mixinArgs]

theorem hxC4a : p300Spec.maxVolume - disposalVol argsC4a < argsC4a.volume := by
  norm_num [p300Spec, disposalVol, argsC4a, mixinArgs]

theorem volC4b_pos : (0 : ℚ) < argsC4b.volume := by
  norm_num [argsC4b, mixinArgs]

theorem gapC4b_nonneg : (0 : ℚ) ≤ airGapVol argsC4b := by
  norm_num [airGapVol, argsC4b, mixinArgs]

theorem hxC4b : p300Spec.maxVolume - disposalVol argsC4b < argsC4b.volume := by
  norm_num [p300Spec, disposalVol, argsC4b, mixinArgs]

/-- Claim C3 (counterexample): with 100 µL per well to four wells, a 5 µL
air gap and no disposal volume on the 300 µL pipette, distribute succeeds
with two chunks of two wells each (first aspirate 200 µL), although three
wells satisfy the claim's air-gap-independent bound
3 × 100 ≤ 300 − 0, so the non-final first chunk does not have the maximum
size the claim asserts. -/
theorem distribute_chunking_ignores_air_gap_cex :
    distribute argsC3 ctxFix stFix = Except.ok (outC3, stC3) ∧
    chunksOf (maxWellsPerChunk argsC3 p300Spec.maxVolume) argsC3.destWells
      = [["A2", "A3"], ["A4", "A5"]] ∧
    (3 : ℚ) * argsC3.volume ≤ p300Spec.maxVolume - disposalVol argsC3 ∧
    outC3.headD (Command.delay 0)
      = Command.aspirate "sourcePlateId" "A1" 200 2.1 3.1 :=
  ⟨evalC3, by rw [mwC3]; rfl,
    by norm_num [argsC3, mixinArgs, p300Spec, disposalVol], rfl⟩

/-- Claim C5 (counterexample): starting from a state where the pipette
holds no tip, a successful changeTip-once distribute emits one pick-up-tip
and zero drop-tip instructions, so the instruction stream does not contain
the drop+pickup pair the claim requires. -/
theorem distribute_tip_pair_cex :
    (distribute argsC5once ctxFix stNoTipHeld).map
      (fun p => (p.1.countP isDropTipCmd, p.1.countP isPickUpTipCmd))
      = Except.ok (0, 1) := by
  norm_num [distribute, distributeLoop, argsC5once, mixinArgs, ctxFix,
    stNoTipHeld, maxWellsPerChunk, disposalVol, airGapVol, chunksOf,
    chunksOfGo, needsTipChange, tipChangeCommands, applyAll, applyCommand,
    addLiquid, chunkBody, mixCommands, aspirateChunkCommands, dispenseOneWell,
    dispenseForWells, blowoutCommands, chunkBlowout, optDelaySeconds,
    delayWithOffset, wellDepth, FIXED_TRASH_ID, TIPRACK_ID, List.lookup,
    Except.map, isDropTipCmd, isPickUpTipCmd]

/-- Claim C8 (counterexample): with an air gap of 5 µL and an aspirate
delay configured, distribute succeeds while emitting no dispense-air-gap
into well A3 (the second well of the first chunk), and the command directly
after the dispense-air-gap into A2 is the main dispense, not a delay of
aspirateDelay.seconds — refuting both the per-well dispense-air-gap and the
aspirateDelay-based delay of the claim. -/
theorem distribute_air_gap_each_well_cex :
    distribute argsC8 ctxFix stFix = Except.ok (outC8, stC8) ∧
    outC8.countP isDispenseAirGapCmd = 2 ∧
    outC8.countP (fun c => dagWell c == some "A3") = 0 ∧
    outC8.getD 5 (Command.delay 0)
      = Command.dispenseAirGap "destPlateId" "A2" 5 2.2 11.54 ∧
    outC8.getD 6 (Command.delay 0)
      = Command.dispense "destPlateId" "A2" 100 2.2 3.2 :=
  ⟨evalC8, by decide, by decide, rfl, rfl⟩

/-- Witness for claim C1 at the minimal example. -/
theorem distribute_chunk_size_invariant_witness :
    (0 : ℚ) < argsC2.volume ∧ (0 : ℚ) ≤ airGapVol argsC2 ∧
    distribute argsC2 ctxFix stFix = Except.ok (outC2, stC2) ∧
    ∀ c ∈ chunksOf (maxWellsPerChunk argsC2 p300Spec.maxVolume) argsC2.destWells,
      (c.length : ℚ) * argsC2.volume + disposalVol argsC2 ≤ p300Spec.maxVolume ∧
      c.length ≤ ((chunksOf (maxWellsPerChunk argsC2 p300Spec.maxVolume)
        argsC2.destWells).headD []).length :=
  ⟨volC2_pos, gapC2_nonneg, evalC2,
    distribute_chunk_size_invariant argsC2 ctxFix stFix outC2 stC2 p300Spec
      rfl volC2_pos gapC2_nonneg evalC2⟩

/-- Witness for claim C3's amended greedy-chunking theorem at the air-gap
chunking example. -/
theorem distribute_greedy_chunking_witness :
    distribute argsC3 ctxFix stFix = Except.ok (outC3, stC3) ∧
    ((∀ i : Nat,
      i + 1 < (chunksOf (maxWellsPerChunk argsC3 p300Spec.maxVolume)
        argsC3.destWells).length →
      ((chunksOf (maxWellsPerChunk argsC3 p300Spec.maxVolume)
        argsC3.destWells).getD i []).length
        = maxWellsPerChunk argsC3 p300Spec.maxVolume) ∧
    ∀ c ∈ chunksOf (maxWellsPerChunk argsC3 p300Spec.maxVolume) argsC3.destWells,
      c.length ≤ maxWellsPerChunk argsC3 p300Spec.maxVolume) :=
  ⟨evalC3,
    distribute_greedy_chunking argsC3 ctxFix stFix outC3 stC3 p300Spec
      rfl evalC3⟩

/-- Witness for claim C4 at both capacity-exceeding examples, with and
without a disposal volume. -/
theorem distribute_volume_exceeded_witness :
    (p300Spec.maxVolume - disposalVol argsC4a < argsC4a.volume ∧
      distribute argsC4a ctxFix stFix
        = Except.error [ErrorKind.PIPETTE_VOLUME_EXCEEDED]) ∧
    (p300Spec.maxVolume - disposalVol argsC4b < argsC4b.volume ∧
      distribute argsC4b ctxFix stFix
        = Except.error [ErrorKind.PIPETTE_VOLUME_EXCEEDED]) :=
  ⟨⟨hxC4a, distribute_volume_exceeded argsC4a ctxFix stFix p300Spec rfl
      volC4a_pos gapC4a_nonneg hxC4a⟩,
   ⟨hxC4b, distribute_volume_exceeded argsC4b ctxFix stFix p300Spec rfl
      volC4b_pos gapC4b_nonneg hxC4b⟩⟩

/-- Witness for claim C5's amended tip-policy theorem at the
change-tip-always example. -/
theorem distribute_tip_policy_witness :
    distribute argsC5 ctxFix stFix = Except.ok (outC5, stC5) ∧
    ((argsC5.changeTip = ChangeTip.never → outC5.countP isTipCmd = 0) ∧
    (argsC5.changeTip = ChangeTip.once → argsC5.destWells ≠ [] →
      ∃ w tail, outC5 = (if stFix.tipHeld then
        [Command.dropTip FIXED_TRASH_ID "A1"] else [])
        ++ Command.pickUpTip TIPRACK_ID w :: tail ∧
        tail.countP isTipCmd = 0) ∧
    (argsC5.changeTip = ChangeTip.always →
      outC5.countP isPickUpTipCmd
        = (chunksOf (maxWellsPerChunk argsC5 p300Spec.maxVolume)
            argsC5.destWells).length ∧
      outC5.countP isDropTipCmd
        = (chunksOf (maxWellsPerChunk argsC5 p300Spec.maxVolume)
            argsC5.destWells).length
          - (if stFix.tipHeld then 0 else 1)) ∧
    adjRel isDropTipCmd (fun _ d => isPickUpTipCmd d) outC5 = true ∧
    adjRel isPickUpTipCmd (fun _ d => isAspirateCmd d) outC5 = true) :=
  ⟨evalC5,
    distribute_tip_policy argsC5 ctxFix stFix outC5 stC5 p300Spec rfl evalC5⟩

/-- Witness for claim C6 at the minimal example. -/
theorem distribute_blowout_invariant_witness :
    distribute argsC2 ctxFix stFix = Except.ok (outC2, stC2) ∧
    (outC2.countP isBlowoutCmd
      = (if 0 < disposalVol argsC2 then
          (chunksOf (maxWellsPerChunk argsC2 p300Spec.maxVolume)
            argsC2.destWells).length
        else 0) ∧
    (∀ c ∈ outC2, isBlowoutCmd c = true → c = chunkBlowout argsC2 ctxFix) ∧
    (0 < disposalVol argsC2 → argsC2.destWells ≠ [] →
      outC2 ≠ [] ∧ outC2.getLastD (Command.delay 0)
        = chunkBlowout argsC2 ctxFix)) :=
  ⟨evalC2,
    distribute_blowout_invariant argsC2 ctxFix stFix outC2 stC2 p300Spec
      rfl evalC2⟩

/-- Witness for claim C7 at the exhausted-tip-rack example. -/
theorem distribute_insufficient_tips_witness :
    (argsC5.changeTip = ChangeTip.always ∧
      stOneTip.rack.length < (chunksOf (maxWellsPerChunk argsC5
        p300Spec.maxVolume) argsC5.destWells).length ∧
      distribute argsC5 ctxFix stOneTip
        = Except.error [ErrorKind.INSUFFICIENT_TIPS]) ∧
    (stNoTipsRemain.rack = [] ∧ argsC7.changeTip ≠ ChangeTip.never ∧
      distribute argsC7 ctxFix stNoTipsRemain
        = Except.error [ErrorKind.INSUFFICIENT_TIPS]) :=
  ⟨⟨rfl, hlenC5,
    distribute_insufficient_tips argsC5 ctxFix stOneTip p300Spec rfl mwC5_ne
      (Or.inl ⟨rfl, hlenC5⟩)⟩,
   ⟨rfl, by decide,
    distribute_insufficient_tips argsC7 ctxFix stNoTipsRemain p300Spec rfl
      mwC7_ne (Or.inr ⟨by decide, rfl, by decide⟩)⟩⟩

/-- Witness for claim C8's amended dispense-air-gap theorem at the
air-gap-with-aspirate-delay example. -/
theorem distribute_air_gap_dispense_witness :
    argsC8.aspirateAirGapVolume = some 5 ∧
    distribute argsC8 ctxFix stFix = Except.ok (outC8, stC8) ∧
    (outC8.filterMap dagWell
      = (chunksOf (maxWellsPerChunk argsC8 p300Spec.maxVolume)
          argsC8.destWells).filterMap List.head? ∧
    adjRel isDispenseAirGapCmd (dagFollows argsC8) outC8 = true) :=
  ⟨rfl, evalC8,
    distribute_air_gap_dispense argsC8 ctxFix stFix outC8 stC8 p300Spec 5
      rfl rfl evalC8⟩

/-- Witness for claim C9 at the air-gap chunking example. -/
theorem distribute_air_gap_chunk_capacity_witness :
    argsC3.aspirateAirGapVolume = some 5 ∧ (0 : ℚ) < argsC3.volume ∧
    distribute argsC3 ctxFix stFix = Except.ok (outC3, stC3) ∧
    ∀ c ∈ chunksOf (maxWellsPerChunk argsC3 p300Spec.maxVolume) argsC3.destWells,
      (c.length : ℚ) * argsC3.volume + disposalVol argsC3 + 5
        ≤ p300Spec.maxVolume :=
  ⟨rfl, volC3_pos, evalC3,
    distribute_air_gap_chunk_capacity argsC3 ctxFix stFix outC3 stC3 p300Spec
      5 rfl rfl volC3_pos evalC3⟩

/-- Witness for claim C10 at the air-gap chunking example: every air gap is
taken and released at 11.54 mm = 10.54 mm well depth + 1 mm. -/
theorem distribute_air_gap_offset_witness :
    distribute argsC3 ctxFix stFix = Except.ok (outC3, stC3) ∧
    (∀ c ∈ outC3,
      (∀ lw w v f o, c = Command.airGap lw w v f o →
        lw = argsC3.sourceLabware ∧ w = argsC3.sourceWell ∧
        o = wellDepth ctxFix argsC3.sourceLabware + 1) ∧
      (∀ lw w v f o, c = Command.dispenseAirGap lw w v f o →
        lw = argsC3.destLabware ∧
        o = wellDepth ctxFix argsC3.destLabware + 1)) ∧
    wellDepth ctxFix argsC3.sourceLabware + 1 = 11.54 :=
  ⟨evalC3,
    distribute_air_gap_offset argsC3 ctxFix stFix outC3 stC3 evalC3,
    by norm_num [wellDepth, ctxFix, argsC3, mixinArgs, List.lookup]⟩

end StepGeneration
